import Mathlib

set_option maxHeartbeats 1000000

namespace YaRedact

/-- Go types, as far as the redaction code distinguishes them.
Struct types carry per-field metadata (name, tag key/value pairs, exported flag, field type),
because Go struct type identity includes field names and tags. -/
inductive GoType : Type where
  | str : GoType
  | int : GoType
  | bool : GoType
  | iface : GoType
  | ptr : GoType → GoType
  | map : GoType → GoType → GoType
  | slice : GoType → GoType
  | array : Nat → GoType → GoType
  | strct : List (String × List (String × String) × Bool × GoType) → GoType

/-- Go runtime values as inspected by the reflect package.
`ptr t none` is a nil pointer of type *t; `iface none` is a nil interface value;
`map kt vt none` / `slice et c none` are nil maps/slices.
Struct fields carry (name, tags, exported, value); the field's declared type is the
type of its current value (Go values are always exactly of their declared type). -/
inductive GoValue : Type where
  | str : String → GoValue
  | int : Int → GoValue
  | bool : Bool → GoValue
  | ptr : GoType → Option GoValue → GoValue
  | iface : Option GoValue → GoValue
  | strct : List (String × List (String × String) × Bool × GoValue) → GoValue
  | map : GoType → GoType → Option (List (GoValue × GoValue)) → GoValue
  | slice : GoType → Nat → Option (List GoValue) → GoValue
  | array : GoType → List GoValue → GoValue

theorem sizeOf_fieldVal_lt (fs : List (String × List (String × String) × Bool × GoValue))
    (f : String × List (String × String) × Bool × GoValue) (h : f ∈ fs) :
    sizeOf f.2.2.2 < sizeOf fs := by
  have h1 := List.sizeOf_lt_of_mem h
  obtain ⟨a, b, c, d⟩ := f
  simp at h1 ⊢
  omega

theorem sizeOf_fieldTy_lt (fs : List (String × List (String × String) × Bool × GoType))
    (f : String × List (String × String) × Bool × GoType) (h : f ∈ fs) :
    sizeOf f.2.2.2 < sizeOf fs := by
  have h1 := List.sizeOf_lt_of_mem h
  obtain ⟨a, b, c, d⟩ := f
  simp at h1 ⊢
  omega

mutual

/-- Structural equality of Go types (models reflect type identity restricted to this universe). -/
def GoType.beq : GoType → GoType → Bool
  | .str, .str => true
  | .int, .int => true
  | .bool, .bool => true
  | .iface, .iface => true
  | .ptr a, .ptr b => GoType.beq a b
  | .map k1 v1, .map k2 v2 => GoType.beq k1 k2 && GoType.beq v1 v2
  | .slice a, .slice b => GoType.beq a b
  | .array m a, .array n b => m == n && GoType.beq a b
  | .strct fs, .strct gs => GoType.beqFields fs gs
  | _, _ => false

/-- Field-list equality for struct types. -/
def GoType.beqFields :
    List (String × List (String × String) × Bool × GoType) →
    List (String × List (String × String) × Bool × GoType) → Bool
  | [], [] => true
  | (n1, t1, e1, ty1) :: fs, (n2, t2, e2, ty2) :: gs =>
      n1 == n2 && t1 == t2 && e1 == e2 && GoType.beq ty1 ty2 && GoType.beqFields fs gs
  | _, _ => false

end

/-- Induction principle for GoType that exposes struct fields by membership. -/
theorem GoType.typeInd {P : GoType → Prop} (hstr : P .str) (hint : P .int) (hbool : P .bool)
    (hiface : P .iface) (hptr : ∀ t, P t → P (.ptr t))
    (hmap : ∀ k v, P k → P v → P (.map k v)) (hslice : ∀ t, P t → P (.slice t))
    (harray : ∀ n t, P t → P (.array n t))
    (hstrct : ∀ fs, (∀ f ∈ fs, P f.2.2.2) → P (.strct fs)) : ∀ a, P a
  | .str => hstr
  | .int => hint
  | .bool => hbool
  | .iface => hiface
  | .ptr t => hptr t (GoType.typeInd hstr hint hbool hiface hptr hmap hslice harray hstrct t)
  | .map k v => hmap k v (GoType.typeInd hstr hint hbool hiface hptr hmap hslice harray hstrct k)
      (GoType.typeInd hstr hint hbool hiface hptr hmap hslice harray hstrct v)
  | .slice t => hslice t (GoType.typeInd hstr hint hbool hiface hptr hmap hslice harray hstrct t)
  | .array n t => harray n t (GoType.typeInd hstr hint hbool hiface hptr hmap hslice harray hstrct t)
  | .strct fs => hstrct fs (fun f hf =>
      have : sizeOf f.2.2.2 < sizeOf fs := sizeOf_fieldTy_lt fs f hf
      GoType.typeInd hstr hint hbool hiface hptr hmap hslice harray hstrct f.2.2.2)
termination_by a => sizeOf a
decreasing_by all_goals (simp; try omega)

theorem GoType.beqFields_sound (fs : List (String × List (String × String) × Bool × GoType))
    (hmem : ∀ f ∈ fs, ∀ b, GoType.beq f.2.2.2 b = true → f.2.2.2 = b) :
    ∀ gs, GoType.beqFields fs gs = true → fs = gs := by
  induction fs with
  | nil => intro gs; cases gs <;> simp [GoType.beqFields]
  | cons f fs ih =>
    intro gs
    cases gs with
    | nil => obtain ⟨n1, t1, e1, ty1⟩ := f; simp [GoType.beqFields]
    | cons g gs' =>
      intro h
      obtain ⟨n1, t1, e1, ty1⟩ := f
      obtain ⟨n2, t2, e2, ty2⟩ := g
      simp [GoType.beqFields] at h
      obtain ⟨⟨⟨⟨hn, ht⟩, he⟩, hty⟩, hrest⟩ := h
      have h1 : ty1 = ty2 := hmem (n1, t1, e1, ty1) (List.mem_cons_self _ _) ty2 hty
      have h2 : fs = gs' := ih (fun f hf => hmem f (List.mem_cons_of_mem _ hf)) gs' hrest
      simp [hn, ht, he, h1, h2]

/-- beq is sound for equality. -/
theorem GoType.beq_sound : ∀ a, ∀ b, GoType.beq a b = true → a = b := by
  intro a
  induction a using GoType.typeInd with
  | hstr => intro b; cases b <;> simp [GoType.beq]
  | hint => intro b; cases b <;> simp [GoType.beq]
  | hbool => intro b; cases b <;> simp [GoType.beq]
  | hiface => intro b; cases b <;> simp [GoType.beq]
  | hptr t iht =>
    intro b; cases b <;> simp [GoType.beq]
    intro h; exact iht _ h
  | hmap k v ihk ihv =>
    intro b; cases b <;> simp [GoType.beq]
    intro h1 h2; exact ⟨ihk _ h1, ihv _ h2⟩
  | hslice t iht =>
    intro b; cases b <;> simp [GoType.beq]
    intro h; exact iht _ h
  | harray n t iht =>
    intro b; cases b <;> simp [GoType.beq]
    intro h1 h2; exact ⟨h1, iht _ h2⟩
  | hstrct fs ihf =>
    intro b; cases b <;> simp [GoType.beq]
    intro h; exact GoType.beqFields_sound fs ihf _ h

/-- beq is reflexive. -/
theorem GoType.beq_refl : ∀ a, GoType.beq a a = true := by
  intro a
  induction a using GoType.typeInd with
  | hstr => simp [GoType.beq]
  | hint => simp [GoType.beq]
  | hbool => simp [GoType.beq]
  | hiface => simp [GoType.beq]
  | hptr t iht => simp [GoType.beq, iht]
  | hmap k v ihk ihv => simp [GoType.beq, ihk, ihv]
  | hslice t iht => simp [GoType.beq, iht]
  | harray n t iht => simp [GoType.beq, iht]
  | hstrct fs ihf =>
    simp [GoType.beq]
    induction fs with
    | nil => simp [GoType.beqFields]
    | cons f fs ih =>
      obtain ⟨n1, t1, e1, ty1⟩ := f
      simp [GoType.beqFields]
      constructor
      · exact ihf (n1, t1, e1, ty1) (List.mem_cons_self _ _)
      · exact ih (fun f hf => ihf f (List.mem_cons_of_mem _ hf))

theorem GoType.beq_iff (a b : GoType) : GoType.beq a b = true ↔ a = b := by
  constructor
  · exact GoType.beq_sound a b
  · intro h; subst h; exact GoType.beq_refl a

theorem GoType.beq_false_of_ne {a b : GoType} (h : a ≠ b) : GoType.beq a b = false := by
  cases hb : GoType.beq a b
  · rfl
  · exact absurd (GoType.beq_sound a b hb) h

/-- The runtime type of a value (reflect.Value.Type()). -/
def goTypeOf : GoValue → GoType
  | .str _ => .str
  | .int _ => .int
  | .bool _ => .bool
  | .ptr t _ => .ptr t
  | .iface _ => .iface
  | .strct fs => .strct (fs.attach.map (fun f => (f.1.1, f.1.2.1, f.1.2.2.1, goTypeOf f.1.2.2.2)))
  | .map kt vt _ => .map kt vt
  | .slice et _ _ => .slice et
  | .array et es => .array es.length et
termination_by v => sizeOf v
decreasing_by
  have := sizeOf_fieldVal_lt fs f.1 f.2
  simp
  omega

theorem sizeOf_entry_fst_lt (es : List (GoValue × GoValue)) (e : GoValue × GoValue)
    (h : e ∈ es) : sizeOf e.1 < sizeOf es := by
  have h1 := List.sizeOf_lt_of_mem h
  obtain ⟨k, v⟩ := e
  simp at h1 ⊢
  omega

theorem sizeOf_entry_snd_lt (es : List (GoValue × GoValue)) (e : GoValue × GoValue)
    (h : e ∈ es) : sizeOf e.2 < sizeOf es := by
  have h1 := List.sizeOf_lt_of_mem h
  obtain ⟨k, v⟩ := e
  simp at h1 ⊢
  omega

/-- Induction principle for GoValue exposing list members. -/
theorem GoValue.valueInd {P : GoValue → Prop}
    (hstr : ∀ s, P (.str s)) (hint : ∀ n, P (.int n)) (hbool : ∀ b, P (.bool b))
    (hptrN : ∀ t, P (.ptr t none)) (hptrS : ∀ t e, P e → P (.ptr t (some e)))
    (hifN : P (.iface none)) (hifS : ∀ e, P e → P (.iface (some e)))
    (hstrct : ∀ fs, (∀ f ∈ fs, P f.2.2.2) → P (.strct fs))
    (hmapN : ∀ kt vt, P (.map kt vt none))
    (hmapS : ∀ kt vt es, (∀ e ∈ es, P e.1 ∧ P e.2) → P (.map kt vt (some es)))
    (hsliceN : ∀ et c, P (.slice et c none))
    (hsliceS : ∀ et c es, (∀ e ∈ es, P e) → P (.slice et c (some es)))
    (harr : ∀ et es, (∀ e ∈ es, P e) → P (.array et es)) : ∀ v, P v
  | .str s => hstr s
  | .int n => hint n
  | .bool b => hbool b
  | .ptr t none => hptrN t
  | .ptr t (some e) => hptrS t e
      (GoValue.valueInd hstr hint hbool hptrN hptrS hifN hifS hstrct hmapN hmapS hsliceN hsliceS harr e)
  | .iface none => hifN
  | .iface (some e) => hifS e
      (GoValue.valueInd hstr hint hbool hptrN hptrS hifN hifS hstrct hmapN hmapS hsliceN hsliceS harr e)
  | .strct fs => hstrct fs (fun f hf =>
      have : sizeOf f.2.2.2 < sizeOf fs := sizeOf_fieldVal_lt fs f hf
      GoValue.valueInd hstr hint hbool hptrN hptrS hifN hifS hstrct hmapN hmapS hsliceN hsliceS harr f.2.2.2)
  | .map kt vt none => hmapN kt vt
  | .map kt vt (some es) => hmapS kt vt es (fun e he =>
      have h1 : sizeOf e.1 < sizeOf es := sizeOf_entry_fst_lt es e he
      have h2 : sizeOf e.2 < sizeOf es := sizeOf_entry_snd_lt es e he
      ⟨GoValue.valueInd hstr hint hbool hptrN hptrS hifN hifS hstrct hmapN hmapS hsliceN hsliceS harr e.1,
       GoValue.valueInd hstr hint hbool hptrN hptrS hifN hifS hstrct hmapN hmapS hsliceN hsliceS harr e.2⟩)
  | .slice et c none => hsliceN et c
  | .slice et c (some es) => hsliceS et c es (fun e he =>
      have : sizeOf e < sizeOf es := List.sizeOf_lt_of_mem he
      GoValue.valueInd hstr hint hbool hptrN hptrS hifN hifS hstrct hmapN hmapS hsliceN hsliceS harr e)
  | .array et es => harr et es (fun e he =>
      have : sizeOf e < sizeOf es := List.sizeOf_lt_of_mem he
      GoValue.valueInd hstr hint hbool hptrN hptrS hifN hifS hstrct hmapN hmapS hsliceN hsliceS harr e)
termination_by v => sizeOf v
decreasing_by all_goals (simp; try omega)

/-- reflect.ValueOf applied to a value of interface type `any`: unwraps interface layers;
returns none (an invalid reflect.Value) when the interface is nil. -/
def rvOf : GoValue → Option GoValue
  | .iface none => none
  | .iface (some x) => rvOf x
  | .str s => some (.str s)
  | .int n => some (.int n)
  | .bool b => some (.bool b)
  | .ptr t x => some (.ptr t x)
  | .strct fs => some (.strct fs)
  | .map kt vt es => some (.map kt vt es)
  | .slice et c es => some (.slice et c es)
  | .array et es => some (.array et es)

/-- reflect.Value.Interface(): the value as a Go `any` (interface layers unwrapped;
a nil interface stays the nil `any`, written `.iface none`). -/
def interfaceOf : GoValue → GoValue
  | .iface (some x) => interfaceOf x
  | .iface none => .iface none
  | .str s => .str s
  | .int n => .int n
  | .bool b => .bool b
  | .ptr t x => .ptr t x
  | .strct fs => .strct fs
  | .map kt vt es => .map kt vt es
  | .slice et c es => .slice et c es
  | .array et es => .array et es

/-- Go type assignability as used by this code: identical types, or assignment into
the empty interface type. -/
def assignableTo (src dst : GoType) : Bool :=
  GoType.beq src dst || GoType.beq dst .iface

/-- reflect.Value.Set / SetMapIndex target typing: storing `x` into a slot of declared
type `dst` succeeds when the types are identical (stored as-is) or `dst` is the empty
interface (stored wrapped); anything else panics, modelled as none. -/
def goSet (dst : GoType) (x : GoValue) : Option GoValue :=
  if GoType.beq (goTypeOf x) dst then some x
  else if GoType.beq dst .iface then some (.iface (some x))
  else none

/-- Rendering of a Go type name as used by reflect.Type.String(). Only the cases that
can appear in the claims are rendered faithfully; struct type names are abbreviated
(no claim evaluates them). -/
def goTypeName : GoType → String
  | .str => "string"
  | .int => "int"
  | .bool => "bool"
  | .iface => "interface {}"
  | .ptr t => "*" ++ goTypeName t
  | .map k v => "map[" ++ goTypeName k ++ "]" ++ goTypeName v
  | .slice e => "[]" ++ goTypeName e
  | .array n e => "[" ++ toString n ++ "]" ++ goTypeName e
  | .strct _ => "struct {...}"

/-- The keyStr computation of the map branch (redact.go lines 148-157):
string-kind keys yield their content; otherwise reflect.ValueOf(key.Interface()).String(),
which for a non-string dynamic value is the placeholder "<T Value>", and for a nil
interface key is "<invalid Value>". -/
def keyStrOf (k : GoValue) : String :=
  match k with
  | .str s => s
  | k =>
    match rvOf (interfaceOf k) with
    | none => "<invalid Value>"
    | some (.str s) => s
    | some v => "<" ++ goTypeName (goTypeOf v) ++ " Value>"

/-- The zero value of a Go type (reflect.New(t).Elem()). -/
def zeroValue : GoType → GoValue
  | .str => .str ""
  | .int => .int 0
  | .bool => .bool false
  | .iface => .iface none
  | .ptr t => .ptr t none
  | .map kt vt => .map kt vt none
  | .slice et => .slice et 0 none
  | .array n et => .array et (List.replicate n (zeroValue et))
  | .strct fs => .strct (fs.attach.map (fun f => (f.1.1, f.1.2.1, f.1.2.2.1, zeroValue f.1.2.2.2)))
termination_by t => sizeOf t
decreasing_by
  all_goals first
    | (rename_i fs0; have := sizeOf_fieldTy_lt fs0 f.1 f.2; simp; omega)
    | (simp; omega)
    | simp

/-- reflect.StructTag.Get modelled over an association list of tag key/value pairs:
first binding wins, missing key yields "". -/
def tagGet (tags : List (String × String)) (k : String) : String :=
  match tags.find? (fun p => p.1 == k) with
  | some p => p.2
  | none => ""

/-- strings.Split(tagValue, ",")[0]: the name portion before the first comma. -/
def tagHeadName (s : String) : String :=
  (s.splitOn ",").headD ""

/-- The fixed, ordered list of recognized struct tag keys (redact.go line 34). -/
def tagNames : List String := ["json", "xml", "yaml", "form", "query", "db", "bson"]

/-- The tag-scanning loop of isFieldSensitive (redact.go lines 35-51). -/
def sensitiveByTags (tags : List (String × String)) (p : String → Bool) : List String → Bool
  | [] => false
  | k :: rest =>
    let tv := tagGet tags k
    if tv ≠ "" then
      let tn := tagHeadName tv
      if tn = "-" then sensitiveByTags tags p rest
      else if p tn then true
      else sensitiveByTags tags p rest
    else sensitiveByTags tags p rest

/-- isFieldSensitive (redact.go lines 27-54): the field name itself, then each
recognized tag in order. -/
def isFieldSensitive (name : String) (tags : List (String × String)) (p : String → Bool) : Bool :=
  if p name then true else sensitiveByTags tags p tagNames

mutual

/-- redactReflectValue (redact.go lines 56-203). `p` is the isSensitive predicate,
`t` the redactValue transform (a Go func(any) any, so it consumes and produces `any`
values). The result is none exactly when the Go code would panic. -/
def redactRV (p : String → Bool) (t : GoValue → GoValue) : GoValue → Option GoValue
  | .ptr pt none => some (.ptr pt none)
  | .ptr _ (some e) =>
    (match redactRV p t e with
    | none => none
    | some r => some (.ptr (goTypeOf r) (some r)))
  | .iface none => some (.iface none)
  | .iface (some e) => redactRV p t e
  | .strct fs =>
    (match redactFields p t fs with
    | none => none
    | some fs2 => some (.strct fs2))
  | .map kt vt none => some (.map kt vt none)
  | .map kt vt (some es) =>
    (match redactEntries p t vt es with
    | none => none
    | some es2 => some (.map kt vt (some es2)))
  | .slice et c none => some (.slice et c none)
  | .slice et c (some es) =>
    (match redactElems p t et es with
    | none => none
    | some es2 => some (.slice et c (some es2)))
  | .array et es =>
    (match redactElems p t et es with
    | none => none
    | some es2 => some (.array et es2))
  | .str s => some (.str s)
  | .int n => some (.int n)
  | .bool b => some (.bool b)
termination_by v => 3 * sizeOf v
decreasing_by all_goals (simp; try omega)

/-- One struct field (redact.go lines 85-135). Unexported fields cannot be set and are
left at the new record's zero value; exported fields are CanInterface, so the sensitive
branch applies the transform (with the pointer special case), falling back to ordinary
recursion on an assignability mismatch; non-sensitive fields are recursed. -/
def redactField (p : String → Bool) (t : GoValue → GoValue) :
    String × List (String × String) × Bool × GoValue →
    Option (String × List (String × String) × Bool × GoValue)
  | (name, tags, exported, fv) =>
    if exported then
      if isFieldSensitive name tags p then
        match fv with
        | .ptr pt (some e) =>
          (match rvOf (t (interfaceOf e)) with
          | none => none
          | some r =>
            if assignableTo (goTypeOf r) (goTypeOf e) then
              match goSet (.ptr pt) (.ptr (goTypeOf r) (some r)) with
              | none => none
              | some fv2 => some (name, tags, exported, fv2)
            else
              match redactRV p t (.ptr pt (some e)) with
              | none => none
              | some red =>
                match goSet (.ptr pt) red with
                | none => none
                | some fv2 => some (name, tags, exported, fv2))
        | fv =>
          (match rvOf (t (interfaceOf fv)) with
          | none => none
          | some r =>
            if assignableTo (goTypeOf r) (goTypeOf fv) then
              match goSet (goTypeOf fv) r with
              | none => none
              | some fv2 => some (name, tags, exported, fv2)
            else
              match redactRV p t fv with
              | none => none
              | some red =>
                match goSet (goTypeOf fv) red with
                | none => none
                | some fv2 => some (name, tags, exported, fv2))
      else
        match redactRV p t fv with
        | none => none
        | some red =>
          match goSet (goTypeOf fv) red with
          | none => none
          | some fv2 => some (name, tags, exported, fv2)
    else
      some (name, tags, exported, zeroValue (goTypeOf fv))
termination_by f => 3 * sizeOf f + 1
decreasing_by all_goals (simp; try omega)

def redactFields (p : String → Bool) (t : GoValue → GoValue) :
    List (String × List (String × String) × Bool × GoValue) →
    Option (List (String × List (String × String) × Bool × GoValue))
  | [] => some []
  | f :: fs =>
    (match redactField p t f with
    | none => none
    | some f2 =>
      match redactFields p t fs with
      | none => none
      | some fs2 => some (f2 :: fs2))
termination_by fs => 3 * sizeOf fs + 2
decreasing_by all_goals (simp; try omega)

/-- One map entry (redact.go lines 145-168). The outer none models a panic; `some none`
models SetMapIndex deleting the key (when the transform returned an untyped nil). -/
def redactEntry (p : String → Bool) (t : GoValue → GoValue) (vt : GoType) :
    GoValue × GoValue → Option (Option (GoValue × GoValue))
  | (k, v) =>
    let ks := keyStrOf k
    if ks ≠ "" && p ks then
      (match rvOf (t (interfaceOf v)) with
      | none => some none
      | some r =>
        match goSet vt r with
        | none => none
        | some r2 => some (some (k, r2)))
    else
      match redactRV p t v with
      | none => none
      | some red =>
        match goSet vt red with
        | none => none
        | some r2 => some (some (k, r2))
termination_by e => 3 * sizeOf e + 1
decreasing_by all_goals (simp; try omega)

def redactEntries (p : String → Bool) (t : GoValue → GoValue) (vt : GoType) :
    List (GoValue × GoValue) → Option (List (GoValue × GoValue))
  | [] => some []
  | e :: rest =>
    (match redactEntry p t vt e with
    | none => none
    | some none => redactEntries p t vt rest
    | some (some e2) =>
      match redactEntries p t vt rest with
      | none => none
      | some rest2 => some (e2 :: rest2))
termination_by es => 3 * sizeOf es + 2
decreasing_by all_goals (simp; try omega)

/-- One slice/array element (redact.go lines 178-182 and 188-192): recursive redaction
then Set into the element type. -/
def redactElem (p : String → Bool) (t : GoValue → GoValue) (et : GoType) (e : GoValue) :
    Option GoValue :=
  match redactRV p t e with
  | none => none
  | some r => goSet et r
termination_by 3 * sizeOf e + 1
decreasing_by all_goals (simp; try omega)

def redactElems (p : String → Bool) (t : GoValue → GoValue) (et : GoType) :
    List GoValue → Option (List GoValue)
  | [] => some []
  | e :: rest =>
    (match redactElem p t et e with
    | none => none
    | some r =>
      match redactElems p t et rest with
      | none => none
      | some rest2 => some (r :: rest2))
termination_by es => 3 * sizeOf es + 2
decreasing_by all_goals (simp; try omega)

end

/-- Redact (redact.go lines 14-23), the public generic entry point. The argument is the
Go value of type T handed to Redact (a value of interface type is iface-wrapped).
reflect.ValueOf unwraps interface arguments and is invalid exactly on a nil interface,
in which case the zero value of T is returned; afterwards the result is asserted back
to T (`result.(T)`), which panics if the dynamic type changed and T is not an interface. -/
def Redact (p : String → Bool) (t : GoValue → GoValue) (arg : GoValue) : Option GoValue :=
  match rvOf arg with
  | none => some (zeroValue (goTypeOf arg))
  | some v =>
    match redactRV p t v with
    | none => none
    | some r =>
      if GoType.beq (goTypeOf arg) .iface then some (.iface (some r))
      else if GoType.beq (goTypeOf r) (goTypeOf arg) then some r
      else none

/-- The tag loop returns true iff some recognized key carries a usable, sensitive name. -/
theorem sensitiveByTags_iff (tags : List (String × String)) (p : String → Bool) :
    ∀ ks : List String, sensitiveByTags tags p ks = true ↔
      ∃ k ∈ ks, tagGet tags k ≠ "" ∧ tagHeadName (tagGet tags k) ≠ "-" ∧
        p (tagHeadName (tagGet tags k)) = true := by
  intro ks
  induction ks with
  | nil => simp [sensitiveByTags]
  | cons k rest ih =>
    by_cases htv : tagGet tags k = ""
    · simp [sensitiveByTags, htv, ih]
    · by_cases hdash : tagHeadName (tagGet tags k) = "-"
      · simp [sensitiveByTags, htv, hdash, ih]
      · by_cases hp : p (tagHeadName (tagGet tags k)) = true
        · simp [sensitiveByTags, htv, hdash, hp]
        · simp [sensitiveByTags, htv, hdash, hp, ih]

/-- C3: the Field Sensitivity Resolver returns true iff the predicate holds of the field
name, or some annotation among the fixed keys json, xml, yaml, form, query, db, bson has
a non-empty value whose portion before the first comma is not "-" and satisfies the
predicate. (The definition scans the fixed keys in that order and returns at the first
sensitive match; for a pure predicate this is extensionally the disjunction below.) -/
theorem C3_fieldSensitivityResolver (name : String) (tags : List (String × String))
    (p : String → Bool) :
    isFieldSensitive name tags p = true ↔
      (p name = true ∨ ∃ k ∈ tagNames, tagGet tags k ≠ "" ∧
        tagHeadName (tagGet tags k) ≠ "-" ∧ p (tagHeadName (tagGet tags k)) = true) := by
  unfold isFieldSensitive
  by_cases hp : p name
  · simp [hp]
  · simp [hp, sensitiveByTags_iff]

/-- C8: a bare string input is returned unchanged by both the traversal and the public
entry point, for every predicate and every transform: standalone strings are never
passed to the transform. -/
theorem C8_bareStringPassthrough (p : String → Bool) (t : GoValue → GoValue) (s : String) :
    redactRV p t (.str s) = some (.str s) ∧ Redact p t (.str s) = some (.str s) := by
  constructor
  · simp [redactRV]
  · simp [Redact, rvOf, redactRV, goTypeOf, GoType.beq]

/-- C6: nil pointer, nil map, and nil slice inputs come back as the same nil value of the
same type, and a nil interface at top level resolves to the zero result; all of this for
arbitrary predicate and transform (so neither is consulted). -/
theorem C6_nilPropagation (p : String → Bool) (t : GoValue → GoValue)
    (pt kt vt et : GoType) (c : Nat) :
    Redact p t (.ptr pt none) = some (.ptr pt none) ∧
    Redact p t (.map kt vt none) = some (.map kt vt none) ∧
    Redact p t (.slice et c none) = some (.slice et c none) ∧
    Redact p t (.iface none) = some (.iface none) := by
  refine ⟨?_, ?_, ?_, ?_⟩ <;>
    simp [Redact, rvOf, redactRV, goTypeOf, GoType.beq, GoType.beq_refl, zeroValue]

/-- C10: a map value stored under the empty-string key is processed by the recursive
branch (redaction then Set), never handed to the transform — the predicate is arbitrary
here, so this holds in particular when it accepts "". Stated for a single entry and for
a whole string-keyed map holding such an entry. -/
theorem C10_emptyStringKeyNotTransformed (p : String → Bool) (t : GoValue → GoValue)
    (vt : GoType) (v : GoValue) :
    redactEntry p t vt (.str "", v) =
      (redactRV p t v).bind (fun red => (goSet vt red).map (fun r2 => some (.str "", r2))) ∧
    redactRV p t (.map .str vt (some [(.str "", v)])) =
      (redactRV p t v).bind (fun red => (goSet vt red).map
        (fun r2 => .map .str vt (some [(.str "", r2)]))) := by
  constructor
  · cases hr : redactRV p t v with
    | none => simp [redactEntry, keyStrOf, hr]
    | some red =>
      cases hs : goSet vt red with
      | none => simp [redactEntry, keyStrOf, hr, hs]
      | some r2 => simp [redactEntry, keyStrOf, hr, hs]
  · cases hr : redactRV p t v with
    | none => simp [redactRV, redactEntries, redactEntry, keyStrOf, hr]
    | some red =>
      cases hs : goSet vt red with
      | none => simp [redactRV, redactEntries, redactEntry, keyStrOf, hr, hs]
      | some r2 => simp [redactRV, redactEntries, redactEntry, keyStrOf, hr, hs]

/-- Successful element processing is positionwise: same length, and each output element
comes from redactElem on the input element at the same index. -/
theorem redactElems_spec (p : String → Bool) (t : GoValue → GoValue) (et : GoType) :
    ∀ es es2, redactElems p t et es = some es2 →
      es2.length = es.length ∧
      ∀ i (hi : i < es.length) (hi2 : i < es2.length),
        redactElem p t et (es.get ⟨i, hi⟩) = some (es2.get ⟨i, hi2⟩) := by
  intro es
  induction es with
  | nil =>
    intro es2 h
    simp [redactElems] at h
    subst h
    simp
  | cons e rest ih =>
    intro es2 h
    rcases hr : redactElem p t et e with _ | r
    · simp [redactElems, hr] at h
    · rcases hrest : redactElems p t et rest with _ | rest2
      · simp [redactElems, hr, hrest] at h
      · simp [redactElems, hr, hrest] at h
        subst h
        obtain ⟨hlen, hidx⟩ := ih rest2 hrest
        refine ⟨by simp [hlen], ?_⟩
        intro i hi hi2
        cases i with
        | zero => simpa using hr
        | succ j => simpa using hidx j (by simpa using hi) (by simpa using hi2)

/-- A list of bare strings passes through element processing unchanged. -/
theorem redactElems_strings (p : String → Bool) (t : GoValue → GoValue) :
    ∀ ss : List String, redactElems p t .str (ss.map GoValue.str) = some (ss.map GoValue.str) := by
  intro ss
  induction ss with
  | nil => simp [redactElems]
  | cons s rest ih =>
    simp [redactElems, redactElem, redactRV, goSet, goTypeOf, GoType.beq, ih]

/-- C5: a non-nil sequence — slice (redact.go lines 172-183) or array (lines 185-193) —
comes back as a sequence of the same element type, length and capacity whose element at
each index is the recursive redaction (redactElem = recursive redaction + Set) of the
input element at that index; in particular string elements pass through unchanged, and
whole []string / [n]string sequences are returned identically for every predicate and
transform, so no element is treated as sensitive by its position. -/
theorem C5_sequenceElementwise (p : String → Bool) (t : GoValue → GoValue) (et : GoType)
    (c : Nat) (es : List GoValue) :
    (∀ r, redactRV p t (.slice et c (some es)) = some r →
      ∃ es2, r = .slice et c (some es2) ∧ es2.length = es.length ∧
        (∀ i (hi : i < es.length) (hi2 : i < es2.length),
          redactElem p t et (es.get ⟨i, hi⟩) = some (es2.get ⟨i, hi2⟩)) ∧
        (et = .str → ∀ i (hi : i < es.length) (hi2 : i < es2.length) (s : String),
          es.get ⟨i, hi⟩ = .str s → es2.get ⟨i, hi2⟩ = .str s)) ∧
    (∀ r, redactRV p t (.array et es) = some r →
      ∃ es2, r = .array et es2 ∧ es2.length = es.length ∧
        (∀ i (hi : i < es.length) (hi2 : i < es2.length),
          redactElem p t et (es.get ⟨i, hi⟩) = some (es2.get ⟨i, hi2⟩)) ∧
        (et = .str → ∀ i (hi : i < es.length) (hi2 : i < es2.length) (s : String),
          es.get ⟨i, hi⟩ = .str s → es2.get ⟨i, hi2⟩ = .str s)) ∧
    (∀ (ss : List String) (c2 : Nat),
      redactRV p t (.slice .str c2 (some (ss.map GoValue.str))) =
        some (.slice .str c2 (some (ss.map GoValue.str)))) ∧
    (∀ ss : List String,
      redactRV p t (.array .str (ss.map GoValue.str)) =
        some (.array .str (ss.map GoValue.str))) := by
  refine ⟨?_, ?_, ?_, ?_⟩
  · intro r h
    rcases hes : redactElems p t et es with _ | es2
    · simp [redactRV, hes] at h
    · simp [redactRV, hes] at h
      obtain ⟨hlen, hidx⟩ := redactElems_spec p t et es es2 hes
      refine ⟨es2, h.symm, hlen, hidx, ?_⟩
      rintro rfl i hi hi2 s hgs
      have := hidx i hi hi2
      rw [hgs] at this
      simp [redactElem, redactRV, goSet, goTypeOf, GoType.beq] at this
      exact this.symm
  · intro r h
    rcases hes : redactElems p t et es with _ | es2
    · simp [redactRV, hes] at h
    · simp [redactRV, hes] at h
      obtain ⟨hlen, hidx⟩ := redactElems_spec p t et es es2 hes
      refine ⟨es2, h.symm, hlen, hidx, ?_⟩
      rintro rfl i hi hi2 s hgs
      have := hidx i hi hi2
      rw [hgs] at this
      simp [redactElem, redactRV, goSet, goTypeOf, GoType.beq] at this
      exact this.symm
  · intro ss c2
    simp [redactRV, redactElems_strings p t ss]
  · intro ss
    simp [redactRV, redactElems_strings p t ss]

theorem C5_sequenceElementwise_witness :
    (∃ es2, GoValue.slice .str 2 (some [.str "password123", .str "normal"]) =
        .slice .str 2 (some es2) ∧
      es2.length = [GoValue.str "password123", GoValue.str "normal"].length ∧
      (∀ i (hi : i < [GoValue.str "password123", GoValue.str "normal"].length)
          (hi2 : i < es2.length),
        redactElem (fun _ => true) (fun _ => GoValue.int 9) .str
          ([GoValue.str "password123", GoValue.str "normal"].get ⟨i, hi⟩) =
          some (es2.get ⟨i, hi2⟩)) ∧
      (GoType.str = .str → ∀ i (hi : i < [GoValue.str "password123", GoValue.str "normal"].length)
          (hi2 : i < es2.length) (s : String),
        [GoValue.str "password123", GoValue.str "normal"].get ⟨i, hi⟩ = .str s →
          es2.get ⟨i, hi2⟩ = .str s)) ∧
    (∃ es2, GoValue.array .str [.str "password123", .str "normal"] = .array .str es2 ∧
      es2.length = [GoValue.str "password123", GoValue.str "normal"].length ∧
      (∀ i (hi : i < [GoValue.str "password123", GoValue.str "normal"].length)
          (hi2 : i < es2.length),
        redactElem (fun _ => true) (fun _ => GoValue.int 9) .str
          ([GoValue.str "password123", GoValue.str "normal"].get ⟨i, hi⟩) =
          some (es2.get ⟨i, hi2⟩)) ∧
      (GoType.str = .str → ∀ i (hi : i < [GoValue.str "password123", GoValue.str "normal"].length)
          (hi2 : i < es2.length) (s : String),
        [GoValue.str "password123", GoValue.str "normal"].get ⟨i, hi⟩ = .str s →
          es2.get ⟨i, hi2⟩ = .str s)) :=
  ⟨(C5_sequenceElementwise (fun _ => true) (fun _ => GoValue.int 9) .str 2
      [GoValue.str "password123", GoValue.str "normal"]).1
    (.slice .str 2 (some [.str "password123", .str "normal"]))
    (by simp [redactRV, redactElems, redactElem, goSet, goTypeOf, GoType.beq]),
   (C5_sequenceElementwise (fun _ => true) (fun _ => GoValue.int 9) .str 2
      [GoValue.str "password123", GoValue.str "normal"]).2.1
    (.array .str [.str "password123", .str "normal"])
    (by simp [redactRV, redactElems, redactElem, goSet, goTypeOf, GoType.beq])⟩

/-- Successful field processing is fieldwise. -/
theorem redactFields_spec (p : String → Bool) (t : GoValue → GoValue) :
    ∀ fs fs2, redactFields p t fs = some fs2 →
      List.Forall₂ (fun f f2 => redactField p t f = some f2) fs fs2 := by
  intro fs
  induction fs with
  | nil =>
    intro fs2 h
    simp [redactFields] at h
    subst h
    exact List.Forall₂.nil
  | cons f rest ih =>
    intro fs2 h
    rcases hf : redactField p t f with _ | f2
    · simp [redactFields, hf] at h
    · rcases hrest : redactFields p t rest with _ | rest2
      · simp [redactFields, hf, hrest] at h
      · simp [redactFields, hf, hrest] at h
        subst h
        exact List.Forall₂.cons hf (ih rest2 hrest)

/-- A successfully processed field keeps its name, tags and exported flag. -/
theorem redactField_shape (p : String → Bool) (t : GoValue → GoValue) (n : String)
    (tg : List (String × String)) (ex : Bool) (fv : GoValue)
    (f2 : String × List (String × String) × Bool × GoValue)
    (h : redactField p t (n, tg, ex, fv) = some f2) :
    ∃ fv2, f2 = (n, tg, ex, fv2) := by
  rw [redactField.eq_def] at h
  dsimp only at h
  iterate 10 (all_goals try split at h)
  all_goals (try (cases h))
  all_goals exact ⟨_, rfl⟩

/-- C7: in the output of a struct, every non-exported field holds the zero value of its
type, while every exported field is the result of the normal per-field processing; names,
tags and exported flags are preserved. -/
theorem C7_unexportedFieldsZeroed (p : String → Bool) (t : GoValue → GoValue)
    (fs : List (String × List (String × String) × Bool × GoValue)) (w : GoValue)
    (h : redactRV p t (.strct fs) = some w) :
    ∃ fs2, w = .strct fs2 ∧ List.Forall₂ (fun f f2 =>
      f2.1 = f.1 ∧ f2.2.1 = f.2.1 ∧ f2.2.2.1 = f.2.2.1 ∧
      (f.2.2.1 = false → f2.2.2.2 = zeroValue (goTypeOf f.2.2.2)) ∧
      (f.2.2.1 = true → redactField p t f = some f2)) fs fs2 := by
  rcases hfs : redactFields p t fs with _ | fs2
  · simp [redactRV, hfs] at h
  · simp [redactRV, hfs] at h
    refine ⟨fs2, h.symm, ?_⟩
    have hall := redactFields_spec p t fs fs2 hfs
    refine List.Forall₂.imp ?_ hall
    intro f f2 hf
    obtain ⟨n, tg, ex, fv⟩ := f
    obtain ⟨fv2, rfl⟩ := redactField_shape p t n tg ex fv f2 hf
    refine ⟨rfl, rfl, rfl, ?_, fun _ => hf⟩
    intro hex
    subst hex
    rw [redactField.eq_def] at hf
    simp at hf
    exact hf.symm

theorem C7_unexportedFieldsZeroed_witness :
    ∃ fs2, GoValue.strct [("Name", [], true, .str "John"), ("password", [], false, .str "")] =
        .strct fs2 ∧ List.Forall₂ (fun f f2 =>
      f2.1 = f.1 ∧ f2.2.1 = f.2.1 ∧ f2.2.2.1 = f.2.2.1 ∧
      (f.2.2.1 = false → f2.2.2.2 = zeroValue (goTypeOf f.2.2.2)) ∧
      (f.2.2.1 = true → redactField (fun s => s == "password") (fun _ => GoValue.str "***") f = some f2))
      [("Name", [], true, GoValue.str "John"), ("password", [], false, GoValue.str "secret123")] fs2 :=
  C7_unexportedFieldsZeroed (fun s => s == "password") (fun _ => GoValue.str "***")
    [("Name", [], true, GoValue.str "John"), ("password", [], false, GoValue.str "secret123")]
    (.strct [("Name", [], true, .str "John"), ("password", [], false, .str "")])
    (by simp [redactRV, redactFields, redactField, isFieldSensitive, sensitiveByTags, tagNames,
      tagGet, tagHeadName, interfaceOf, rvOf, assignableTo, goSet, goTypeOf, GoType.beq, zeroValue])

/-- C1 as stated is false: a non-string map key is not compared by its value, but it is
not ignored either — reflect.Value.String() yields the placeholder "<int Value>" for an
int key, and a predicate matching that placeholder gets the transform applied to the
key's value. Here the map {1: "a"} under such a predicate comes back as {1: "X"} (the
transform's output), not as the recursive redaction {1: "a"}. -/
theorem C1_counterexample :
    redactRV (fun s => s == "<int Value>") (fun _ => GoValue.str "X")
        (.map .int .str (some [(.int 1, .str "a")])) =
      some (.map .int .str (some [(.int 1, .str "X")])) ∧
    some (GoValue.map .int .str (some [(.int 1, .str "X")])) ≠
      some (GoValue.map .int .str (some [(.int 1, .str "a")])) := by
  constructor
  · simp [redactRV, redactEntries, redactEntry, keyStrOf, rvOf, interfaceOf, goTypeOf,
      goTypeName, goSet, GoType.beq]
  · simp

/-- C1 (amended): for a map entry whose key is not (dynamically) a string, the key is
compared against the predicate via the placeholder string produced by
reflect.Value.String() ("<T Value>", or "<invalid Value>" for a nil interface key);
whenever the predicate rejects that placeholder — in particular for any predicate that
never matches such placeholder strings — the transform is not applied to the entry's
value and the value is recursively redacted instead. -/
theorem C1_nonStringKeyRecursed (p : String → Bool) (t : GoValue → GoValue) (vt : GoType)
    (k v : GoValue) (hk : ∀ s, interfaceOf k ≠ GoValue.str s)
    (hp : p (keyStrOf k) = false) :
    redactEntry p t vt (k, v) =
      (redactRV p t v).bind (fun red => (goSet vt red).map (fun r2 => some (k, r2))) := by
  cases hr : redactRV p t v with
  | none => simp [redactEntry, hp, hr]
  | some red =>
    cases hs : goSet vt red with
    | none => simp [redactEntry, hp, hr, hs]
    | some r2 => simp [redactEntry, hp, hr, hs]

theorem C1_nonStringKeyRecursed_witness :
    redactEntry (fun s => s == "password") (fun _ => GoValue.str "X") .str
        (.int 1, .str "a") =
      (redactRV (fun s => s == "password") (fun _ => GoValue.str "X") (.str "a")).bind
        (fun red => (goSet .str red).map (fun r2 => some (.int 1, r2))) :=
  C1_nonStringKeyRecursed (fun s => s == "password") (fun _ => GoValue.str "X") .str
    (.int 1) (.str "a")
    (by intro s; simp [interfaceOf])
    (by simp [keyStrOf, rvOf, interfaceOf, goTypeOf, goTypeName])

/-- C2 as stated is false for map-value slots: the map branch has no assignability
check, so a transform result that is not assignable to the map's value type makes
SetMapIndex panic instead of falling back to recursive redaction: redacting
{"password": "x"} with a transform returning an int panics (modelled as none), whereas
the claim predicts the recursive redaction {"password": "x"} to be stored. -/
theorem C2_counterexample :
    redactRV (fun s => s == "password") (fun _ => GoValue.int 5)
        (.map .str .str (some [(.str "password", .str "x")])) = none := by
  simp [redactRV, redactEntries, redactEntry, keyStrOf, rvOf, interfaceOf, goTypeOf,
    goSet, GoType.beq]

/-- C2 (amended): for sensitive struct fields (both the non-nil-pointer special case and
the ordinary case), a transform result that is not assignable to the declared slot type
is discarded and the field's output is the ordinary recursive redaction of the original
value, stored by the same Set; the mismatch itself raises nothing. Map-value slots have
no such fallback (see the counterexample). -/
theorem C2_mismatchFallsBackOnFields (p : String → Bool) (t : GoValue → GoValue)
    (n : String) (tg : List (String × String)) (fv r : GoValue)
    (hsens : isFieldSensitive n tg p = true) :
    ((∀ pt e, fv ≠ .ptr pt (some e)) →
      rvOf (t (interfaceOf fv)) = some r →
      assignableTo (goTypeOf r) (goTypeOf fv) = false →
      redactField p t (n, tg, true, fv) =
        (redactRV p t fv).bind
          (fun red => (goSet (goTypeOf fv) red).map (fun fv2 => (n, tg, true, fv2)))) ∧
    (∀ pt e, fv = .ptr pt (some e) →
      rvOf (t (interfaceOf e)) = some r →
      assignableTo (goTypeOf r) (goTypeOf e) = false →
      redactField p t (n, tg, true, fv) =
        (redactRV p t fv).bind
          (fun red => (goSet (.ptr pt) red).map (fun fv2 => (n, tg, true, fv2)))) := by
  constructor
  · intro hnp hr hmis
    rw [redactField.eq_def]
    dsimp only
    rw [if_pos rfl, if_pos hsens]
    have hbody :
        (match fv with
          | .ptr pt (some e) =>
            (match rvOf (t (interfaceOf e)) with
            | none => none
            | some r =>
              if assignableTo (goTypeOf r) (goTypeOf e) then
                match goSet (.ptr pt) (.ptr (goTypeOf r) (some r)) with
                | none => none
                | some fv2 => some (n, tg, true, fv2)
              else
                match redactRV p t (.ptr pt (some e)) with
                | none => none
                | some red =>
                  match goSet (.ptr pt) red with
                  | none => none
                  | some fv2 => some (n, tg, true, fv2))
          | fv =>
            (match rvOf (t (interfaceOf fv)) with
            | none => none
            | some r =>
              if assignableTo (goTypeOf r) (goTypeOf fv) then
                match goSet (goTypeOf fv) r with
                | none => none
                | some fv2 => some (n, tg, true, fv2)
              else
                match redactRV p t fv with
                | none => none
                | some red =>
                  match goSet (goTypeOf fv) red with
                  | none => none
                  | some fv2 => some (n, tg, true, fv2))) =
        (match rvOf (t (interfaceOf fv)) with
          | none => none
          | some r =>
            if assignableTo (goTypeOf r) (goTypeOf fv) then
              match goSet (goTypeOf fv) r with
              | none => none
              | some fv2 => some (n, tg, true, fv2)
            else
              match redactRV p t fv with
              | none => none
              | some red =>
                match goSet (goTypeOf fv) red with
                | none => none
                | some fv2 => some (n, tg, true, fv2)) := by
      cases fv with
      | ptr pt oe =>
        cases oe with
        | none => rfl
        | some e => exact absurd rfl (hnp pt e)
      | str s => rfl
      | int m => rfl
      | bool b => rfl
      | iface x => rfl
      | strct fs => rfl
      | map kt vt es => rfl
      | slice et c es => rfl
      | array et es => rfl
    rw [hbody, hr]
    dsimp only
    rw [if_neg (by simp [hmis])]
    cases hred : redactRV p t fv with
    | none => simp
    | some red =>
      cases hs : goSet (goTypeOf fv) red with
      | none => simp [hs]
      | some fv2 => simp [hs]
  · rintro pt e rfl hr hmis
    rw [redactField.eq_def]
    dsimp only
    rw [if_pos rfl, if_pos hsens]
    rw [hr]
    dsimp only
    rw [if_neg (by simp [hmis])]
    cases hred : redactRV p t (GoValue.ptr pt (some e)) with
    | none => simp [hred]
    | some red =>
      cases hs : goSet (.ptr pt) red with
      | none => simp [hred, hs]
      | some fv2 => simp [hred, hs]

theorem C2_mismatchFallsBackOnFields_witness :
    redactField (fun s => s == "Password") (fun _ => GoValue.int 5)
        ("Password", [], true, .str "secret") =
      some ("Password", [], true, .str "secret") := by
  have h := (C2_mismatchFallsBackOnFields (fun s => s == "Password") (fun _ => GoValue.int 5)
    "Password" [] (.str "secret") (.int 5)
    (by simp [isFieldSensitive])).1
    (by intro pt e hne; cases hne)
    (by simp [rvOf, interfaceOf])
    (by simp [assignableTo, goTypeOf, GoType.beq])
  rw [h]
  simp [redactRV, goSet, goTypeOf, GoType.beq]

/-- Whether a value is of interface kind. -/
def ifaceTopped : GoValue → Bool
  | .iface _ => true
  | _ => false

/-- Whether a value is a well-formed Go `any`: either a concrete dynamic value or nil. -/
def anyNormal (x : GoValue) : Prop := ifaceTopped x = false ∨ x = .iface none

theorem interfaceOf_of_notIface {v : GoValue} (h : ifaceTopped v = false) :
    interfaceOf v = v := by
  cases v <;> simp [ifaceTopped] at h ⊢ <;> simp [interfaceOf]

theorem rvOf_of_notIface {v : GoValue} (h : ifaceTopped v = false) :
    rvOf v = some v := by
  cases v <;> simp [ifaceTopped] at h ⊢ <;> simp [rvOf]

theorem rvOf_notIface : ∀ v w, rvOf v = some w → ifaceTopped w = false := by
  intro v
  induction v using GoValue.valueInd with
  | hifN => intro w h; simp [rvOf] at h
  | hifS e ih => intro w h; simp only [rvOf] at h; exact ih w h
  | hstr s => intro w h; simp [rvOf] at h; subst h; simp [ifaceTopped]
  | hint n => intro w h; simp [rvOf] at h; subst h; simp [ifaceTopped]
  | hbool b => intro w h; simp [rvOf] at h; subst h; simp [ifaceTopped]
  | hptrN t => intro w h; simp [rvOf] at h; subst h; simp [ifaceTopped]
  | hptrS t e ih => intro w h; simp [rvOf] at h; subst h; simp [ifaceTopped]
  | hstrct fs ih => intro w h; simp [rvOf] at h; subst h; simp [ifaceTopped]
  | hmapN kt vt => intro w h; simp [rvOf] at h; subst h; simp [ifaceTopped]
  | hmapS kt vt es ih => intro w h; simp [rvOf] at h; subst h; simp [ifaceTopped]
  | hsliceN et c => intro w h; simp [rvOf] at h; subst h; simp [ifaceTopped]
  | hsliceS et c es ih => intro w h; simp [rvOf] at h; subst h; simp [ifaceTopped]
  | harr et es ih => intro w h; simp [rvOf] at h; subst h; simp [ifaceTopped]

theorem interfaceOf_anyNormal : ∀ v, anyNormal (interfaceOf v) := by
  intro v
  induction v using GoValue.valueInd with
  | hifN => right; simp [interfaceOf]
  | hifS e ih => simpa [interfaceOf] using ih
  | hstr s => left; simp [interfaceOf, ifaceTopped]
  | hint n => left; simp [interfaceOf, ifaceTopped]
  | hbool b => left; simp [interfaceOf, ifaceTopped]
  | hptrN t => left; simp [interfaceOf, ifaceTopped]
  | hptrS t e ih => left; simp [interfaceOf, ifaceTopped]
  | hstrct fs ih => left; simp [interfaceOf, ifaceTopped]
  | hmapN kt vt => left; simp [interfaceOf, ifaceTopped]
  | hmapS kt vt es ih => left; simp [interfaceOf, ifaceTopped]
  | hsliceN et c => left; simp [interfaceOf, ifaceTopped]
  | hsliceS et c es ih => left; simp [interfaceOf, ifaceTopped]
  | harr et es ih => left; simp [interfaceOf, ifaceTopped]

theorem goTypeOf_strct (fs : List (String × List (String × String) × Bool × GoValue)) :
    goTypeOf (.strct fs) = .strct (fs.map (fun f => (f.1, f.2.1, f.2.2.1, goTypeOf f.2.2.2))) := by
  rw [goTypeOf]
  congr 1
  have h1 : (fun f : { x // x ∈ fs } => (f.1.1, f.1.2.1, f.1.2.2.1, goTypeOf f.1.2.2.2)) =
      (fun x : String × List (String × String) × Bool × GoValue =>
        (x.1, x.2.1, x.2.2.1, goTypeOf x.2.2.2)) ∘ Subtype.val := rfl
  rw [h1, ← List.map_map, List.attach_map_subtype_val]

theorem zeroValue_strct (fs : List (String × List (String × String) × Bool × GoType)) :
    zeroValue (.strct fs) = .strct (fs.map (fun f => (f.1, f.2.1, f.2.2.1, zeroValue f.2.2.2))) := by
  rw [zeroValue]
  congr 1
  have h1 : (fun f : { x // x ∈ fs } => (f.1.1, f.1.2.1, f.1.2.2.1, zeroValue f.1.2.2.2)) =
      (fun x : String × List (String × String) × Bool × GoType =>
        (x.1, x.2.1, x.2.2.1, zeroValue x.2.2.2)) ∘ Subtype.val := rfl
  rw [h1, ← List.map_map, List.attach_map_subtype_val]

theorem goTypeOf_iface_iff : ∀ v, goTypeOf v = .iface ↔ ifaceTopped v = true := by
  intro v
  cases v <;> simp [goTypeOf_strct, goTypeOf, ifaceTopped]

/-- The zero value of a type has that type. -/
theorem goTypeOf_zeroValue : ∀ T, goTypeOf (zeroValue T) = T := by
  intro T
  induction T using GoType.typeInd with
  | hstr => simp [zeroValue, goTypeOf]
  | hint => simp [zeroValue, goTypeOf]
  | hbool => simp [zeroValue, goTypeOf]
  | hiface => simp [zeroValue, goTypeOf]
  | hptr t iht => simp [zeroValue, goTypeOf]
  | hmap k v ihk ihv => simp [zeroValue, goTypeOf]
  | hslice t iht => simp [zeroValue, goTypeOf]
  | harray n t iht => simp [zeroValue, goTypeOf]
  | hstrct fs ihf =>
    rw [zeroValue_strct, goTypeOf_strct, List.map_map]
    have : ∀ gs : List (String × List (String × String) × Bool × GoType),
        (∀ f ∈ gs, goTypeOf (zeroValue f.2.2.2) = f.2.2.2) →
        gs.map ((fun f => (f.1, f.2.1, f.2.2.1, goTypeOf f.2.2.2)) ∘
          (fun f => (f.1, f.2.1, f.2.2.1, zeroValue f.2.2.2))) = gs := by
      intro gs hgs
      induction gs with
      | nil => simp
      | cons g rest ih =>
        obtain ⟨n, tg, ex, ty⟩ := g
        simp only [List.map_cons, Function.comp_apply]
        rw [hgs (n, tg, ex, ty) (List.mem_cons_self _ _)]
        rw [ih (fun f hf => hgs f (List.mem_cons_of_mem _ hf))]
    rw [this fs ihf]

theorem goSet_cases (dst : GoType) (x y : GoValue) (h : goSet dst x = some y) :
    (GoType.beq (goTypeOf x) dst = true ∧ y = x) ∨
    (GoType.beq (goTypeOf x) dst = false ∧ dst = .iface ∧ y = .iface (some x)) := by
  unfold goSet at h
  by_cases h1 : GoType.beq (goTypeOf x) dst = true
  · left
    rw [if_pos h1] at h
    exact ⟨h1, (Option.some.inj h).symm⟩
  · right
    rw [if_neg h1] at h
    by_cases h2 : GoType.beq dst .iface = true
    · rw [if_pos h2] at h
      exact ⟨by simpa using h1, GoType.beq_sound dst .iface h2, (Option.some.inj h).symm⟩
    · rw [if_neg h2] at h
      cases h

theorem goSet_of_beq {dst : GoType} {x : GoValue} (h : GoType.beq (goTypeOf x) dst = true) :
    goSet dst x = some x := by
  unfold goSet
  rw [if_pos h]

/-- An unexported field is left at the zero value of its declared type. -/
theorem redactField_unexported (p : String → Bool) (t : GoValue → GoValue) (n : String)
    (tg : List (String × String)) (fv : GoValue) :
    redactField p t (n, tg, false, fv) = some (n, tg, false, zeroValue (goTypeOf fv)) := by
  rw [redactField.eq_def]
  simp

/-- A non-sensitive exported field is recursed then Set. -/
theorem redactField_notSensitive (p : String → Bool) (t : GoValue → GoValue) (n : String)
    (tg : List (String × String)) (fv : GoValue)
    (hsens : isFieldSensitive n tg p = false) :
    redactField p t (n, tg, true, fv) =
      (redactRV p t fv).bind
        (fun red => (goSet (goTypeOf fv) red).map (fun fv2 => (n, tg, true, fv2))) := by
  rw [redactField.eq_def]
  dsimp only
  rw [if_pos rfl, if_neg (by simp [hsens])]
  cases hred : redactRV p t fv with
  | none => simp
  | some red =>
    cases hs : goSet (goTypeOf fv) red with
    | none => simp [hs]
    | some fv2 => simp [hs]

/-- The sensitive non-(non-nil-pointer) field branch, folded to its else arm. -/
theorem redactField_sensitive_else (p : String → Bool) (t : GoValue → GoValue) (n : String)
    (tg : List (String × String)) (fv : GoValue)
    (hsens : isFieldSensitive n tg p = true)
    (hnp : ∀ pt e, fv ≠ .ptr pt (some e)) :
    redactField p t (n, tg, true, fv) =
      (match rvOf (t (interfaceOf fv)) with
        | none => none
        | some r =>
          if assignableTo (goTypeOf r) (goTypeOf fv) then
            match goSet (goTypeOf fv) r with
            | none => none
            | some fv2 => some (n, tg, true, fv2)
          else
            match redactRV p t fv with
            | none => none
            | some red =>
              match goSet (goTypeOf fv) red with
              | none => none
              | some fv2 => some (n, tg, true, fv2)) := by
  rw [redactField.eq_def]
  dsimp only
  rw [if_pos rfl, if_pos hsens]
  cases fv with
  | ptr pt oe =>
    cases oe with
    | none => rfl
    | some e => exact absurd rfl (hnp pt e)
  | str s => rfl
  | int m => rfl
  | bool b => rfl
  | iface x => rfl
  | strct fs => rfl
  | map kt vt es => rfl
  | slice et c es => rfl
  | array et es => rfl

/-- The sensitive non-nil-pointer field branch under an assignable transform result. -/
theorem redactField_sensitive_ptr (p : String → Bool) (t : GoValue → GoValue) (n : String)
    (tg : List (String × String)) (pt : GoType) (e r : GoValue)
    (hsens : isFieldSensitive n tg p = true)
    (hr : rvOf (t (interfaceOf e)) = some r)
    (hass : assignableTo (goTypeOf r) (goTypeOf e) = true) :
    redactField p t (n, tg, true, .ptr pt (some e)) =
      (goSet (.ptr pt) (.ptr (goTypeOf r) (some r))).map (fun fv2 => (n, tg, true, fv2)) := by
  rw [redactField.eq_def]
  dsimp only
  rw [if_pos rfl, if_pos hsens, hr]
  dsimp only
  rw [if_pos hass]
  cases hs : goSet (.ptr pt) (.ptr (goTypeOf r) (some r)) with
  | none => simp
  | some fv2 => simp

/-- The sensitive ordinary field branch under an assignable transform result. -/
theorem redactField_sensitive_plain (p : String → Bool) (t : GoValue → GoValue) (n : String)
    (tg : List (String × String)) (fv r : GoValue)
    (hsens : isFieldSensitive n tg p = true)
    (hnp : ∀ pt e, fv ≠ .ptr pt (some e))
    (hr : rvOf (t (interfaceOf fv)) = some r)
    (hass : assignableTo (goTypeOf r) (goTypeOf fv) = true) :
    redactField p t (n, tg, true, fv) =
      (goSet (goTypeOf fv) r).map (fun fv2 => (n, tg, true, fv2)) := by
  rw [redactField_sensitive_else p t n tg fv hsens hnp, hr]
  dsimp only
  rw [if_pos hass]
  cases hs : goSet (goTypeOf fv) r with
  | none => simp
  | some fv2 => simp

/-- The sensitive non-nil-pointer field branch panics when the transform returned an
untyped nil (reflect.Value.Type() on an invalid Value, redact.go line 105). -/
theorem redactField_sensitive_ptr_none (p : String → Bool) (t : GoValue → GoValue)
    (n : String) (tg : List (String × String)) (pt : GoType) (e : GoValue)
    (hsens : isFieldSensitive n tg p = true)
    (hr : rvOf (t (interfaceOf e)) = none) :
    redactField p t (n, tg, true, .ptr pt (some e)) = none := by
  rw [redactField.eq_def]
  dsimp only
  rw [if_pos rfl, if_pos hsens, hr]

/-- The sensitive ordinary field branch panics when the transform returned an untyped
nil (reflect.Value.Type() on an invalid Value, redact.go line 122). -/
theorem redactField_sensitive_plain_none (p : String → Bool) (t : GoValue → GoValue)
    (n : String) (tg : List (String × String)) (fv : GoValue)
    (hsens : isFieldSensitive n tg p = true)
    (hnp : ∀ pt e, fv ≠ .ptr pt (some e))
    (hr : rvOf (t (interfaceOf fv)) = none) :
    redactField p t (n, tg, true, fv) = none := by
  rw [redactField_sensitive_else p t n tg fv hsens hnp, hr]

/-- Under a dynamic-type-preserving transform, the assignability check of the sensitive
branches always passes. -/
theorem assignable_transform {t : GoValue → GoValue}
    (htype : ∀ x, ifaceTopped x = false → goTypeOf (t x) = goTypeOf x)
    (e : GoValue) :
    assignableTo (goTypeOf (t (interfaceOf e))) (goTypeOf e) = true := by
  by_cases hie : ifaceTopped e = true
  · have hT : goTypeOf e = .iface := (goTypeOf_iface_iff e).mpr hie
    unfold assignableTo
    rw [hT]
    simp [GoType.beq_refl]
  · have hie2 : ifaceTopped e = false := by simpa using hie
    rw [interfaceOf_of_notIface hie2]
    unfold assignableTo
    rw [htype e hie2]
    simp [GoType.beq_refl]

/-- A transform result that reflect.ValueOf found valid is a concrete non-interface
value, with the usual consequences; derived from well-formedness of the result as a Go
`any` (a concrete value or nil) rather than assuming nil results away. -/
theorem t_some_facts {t : GoValue → GoValue}
    (hwrap : ∀ x, anyNormal x → anyNormal (t x))
    (hidem : ∀ x, anyNormal x → t (t x) = t x)
    (x r : GoValue) (hx : anyNormal x) (hr : rvOf (t x) = some r) :
    r = t x ∧ ifaceTopped (t x) = false ∧ interfaceOf (t x) = t x ∧
      rvOf (t x) = some (t x) ∧ t (t x) = t x := by
  have hni : ifaceTopped (t x) = false := by
    rcases hwrap x hx with hni | hnil
    · exact hni
    · rw [hnil] at hr
      simp [rvOf] at hr
  have hrv : rvOf (t x) = some (t x) := rvOf_of_notIface hni
  rw [hrv] at hr
  exact ⟨(Option.some.inj hr).symm, hni, interfaceOf_of_notIface hni, hrv, hidem x hx⟩

theorem notPtrSome_of_type {r : GoValue} (h : ∀ q, goTypeOf r ≠ .ptr q) :
    ∀ q z, r ≠ .ptr q (some z) := by
  intro q z hrz
  subst hrz
  exact h q (by simp [goTypeOf])

theorem redactRV_iface_some (p : String → Bool) (t : GoValue → GoValue) (u : GoValue) :
    redactRV p t (.iface (some u)) = redactRV p t u := by
  simp [redactRV]

theorem redactElem_stable {p : String → Bool} {t : GoValue → GoValue} (et : GoType)
    (e r2 : GoValue)
    (hIH : ∀ w, redactRV p t e = some w → redactRV p t w = some w)
    (h : redactElem p t et e = some r2) :
    redactElem p t et r2 = some r2 := by
  rw [redactElem.eq_def] at h
  cases hu : redactRV p t e with
  | none => rw [hu] at h; simp at h
  | some u =>
    rw [hu] at h
    dsimp only at h
    rcases goSet_cases et u r2 h with ⟨hbeq, rfl⟩ | ⟨hbeq, rfl, rfl⟩
    · rw [redactElem.eq_def, hIH r2 hu]
      exact goSet_of_beq hbeq
    · have h2 : redactRV p t (.iface (some u)) = some u := by
        rw [redactRV_iface_some]; exact hIH u hu
      rw [redactElem.eq_def, h2]
      dsimp only
      unfold goSet
      rw [if_neg (by simp [hbeq]), if_pos (by simp [GoType.beq])]

theorem redactElems_stable {p : String → Bool} {t : GoValue → GoValue} (et : GoType) :
    ∀ es es2, (∀ e ∈ es, ∀ w, redactRV p t e = some w → redactRV p t w = some w) →
      redactElems p t et es = some es2 → redactElems p t et es2 = some es2 := by
  intro es
  induction es with
  | nil =>
    intro es2 hmem h
    simp [redactElems] at h
    subst h
    simp [redactElems]
  | cons e rest ih =>
    intro es2 hmem h
    rcases hr : redactElem p t et e with _ | r
    · simp [redactElems, hr] at h
    · rcases hrest : redactElems p t et rest with _ | rest2
      · simp [redactElems, hr, hrest] at h
      · simp [redactElems, hr, hrest] at h
        subst h
        have hr' := redactElem_stable et e r
          (fun w hw => hmem e (List.mem_cons_self _ _) w hw) hr
        have hrest' := ih rest2 (fun e2 he2 => hmem e2 (List.mem_cons_of_mem _ he2)) hrest
        simp [redactElems, hr', hrest']

theorem interfaceOf_iface_some (u : GoValue) :
    interfaceOf (.iface (some u)) = interfaceOf u := by
  simp [interfaceOf]

theorem redactEntry_stable {p : String → Bool} {t : GoValue → GoValue}
    (hwrap : ∀ x, anyNormal x → anyNormal (t x))
    (hidem : ∀ x, anyNormal x → t (t x) = t x)
    (vt : GoType) (k v : GoValue) (e2 : GoValue × GoValue)
    (hIH : ∀ w, redactRV p t v = some w → redactRV p t w = some w)
    (h : redactEntry p t vt (k, v) = some (some e2)) :
    redactEntry p t vt e2 = some (some e2) := by
  rw [redactEntry.eq_def] at h
  dsimp only at h
  by_cases hcond : (decide (keyStrOf k ≠ "") && p (keyStrOf k)) = true
  · rw [if_pos hcond] at h
    cases hrv0 : rvOf (t (interfaceOf v)) with
    | none => rw [hrv0] at h; simp at h
    | some r0 =>
      obtain ⟨hr_eq, hni, hio, hrv, hit⟩ := t_some_facts hwrap hidem (interfaceOf v) r0
        (interfaceOf_anyNormal v) hrv0
      rw [hrv] at h
      dsimp only at h
      cases hs : goSet vt (t (interfaceOf v)) with
      | none => rw [hs] at h; simp at h
      | some r2 =>
        rw [hs] at h
        simp only [Option.some.injEq] at h
        subst h
        rcases goSet_cases vt (t (interfaceOf v)) r2 hs with ⟨hbeq, rfl⟩ | ⟨hbeq, rfl, rfl⟩
        · rw [redactEntry.eq_def]
          dsimp only
          rw [if_pos hcond, hio, hit, hrv]
          dsimp only
          rw [goSet_of_beq hbeq]
        · rw [redactEntry.eq_def]
          dsimp only
          rw [if_pos hcond, interfaceOf_iface_some, hio, hit, hrv]
          dsimp only
          unfold goSet
          rw [if_neg (by simp [hbeq]), if_pos (by simp [GoType.beq])]
  · rw [if_neg hcond] at h
    cases hu : redactRV p t v with
    | none => rw [hu] at h; simp at h
    | some red =>
      rw [hu] at h
      dsimp only at h
      cases hs : goSet vt red with
      | none => rw [hs] at h; simp at h
      | some r2 =>
        rw [hs] at h
        simp only [Option.some.injEq] at h
        subst h
        rcases goSet_cases vt red r2 hs with ⟨hbeq, rfl⟩ | ⟨hbeq, rfl, rfl⟩
        · rw [redactEntry.eq_def]
          dsimp only
          rw [if_neg hcond, hIH r2 hu]
          dsimp only
          rw [goSet_of_beq hbeq]
        · have h2 : redactRV p t (.iface (some red)) = some red := by
            rw [redactRV_iface_some]; exact hIH red hu
          rw [redactEntry.eq_def]
          dsimp only
          rw [if_neg hcond, h2]
          dsimp only
          unfold goSet
          rw [if_neg (by simp [hbeq]), if_pos (by simp [GoType.beq])]

theorem redactEntries_stable {p : String → Bool} {t : GoValue → GoValue}
    (hwrap : ∀ x, anyNormal x → anyNormal (t x))
    (hidem : ∀ x, anyNormal x → t (t x) = t x) (vt : GoType) :
    ∀ es es2, (∀ e ∈ es, ∀ w, redactRV p t e.2 = some w → redactRV p t w = some w) →
      redactEntries p t vt es = some es2 → redactEntries p t vt es2 = some es2 := by
  intro es
  induction es with
  | nil =>
    intro es2 hmem h
    simp [redactEntries] at h
    subst h
    simp [redactEntries]
  | cons e rest ih =>
    intro es2 hmem h
    obtain ⟨k, v⟩ := e
    rcases he : redactEntry p t vt (k, v) with _ | oe2
    · simp [redactEntries, he] at h
    · cases oe2 with
      | none =>
        simp [redactEntries, he] at h
        exact ih es2 (fun e2 he2 => hmem e2 (List.mem_cons_of_mem _ he2)) h
      | some e2 =>
        rcases hrest : redactEntries p t vt rest with _ | rest2
        · simp [redactEntries, he, hrest] at h
        · simp [redactEntries, he, hrest] at h
          subst h
          have he' := redactEntry_stable hwrap hidem vt k v e2
            (fun w hw => hmem (k, v) (List.mem_cons_self _ _) w hw) he
          have hrest' := ih rest2 (fun e2 he2 => hmem e2 (List.mem_cons_of_mem _ he2)) hrest
          obtain ⟨k2, v2⟩ := e2
          simp [redactEntries, he', hrest']

theorem redactField_stable_plain {p : String → Bool} {t : GoValue → GoValue}
    (htype : ∀ x, ifaceTopped x = false → goTypeOf (t x) = goTypeOf x)
    (hidem : ∀ x, anyNormal x → t (t x) = t x)
    (n : String) (tg : List (String × String)) (fv fv2 : GoValue)
    (hsens : isFieldSensitive n tg p = true)
    (hni : ifaceTopped fv = false)
    (hnp : ∀ q z, fv ≠ .ptr q (some z))
    (hnpt : ∀ q, goTypeOf fv ≠ .ptr q)
    (h : redactField p t (n, tg, true, fv) = some (n, tg, true, fv2)) :
    redactField p t (n, tg, true, fv2) = some (n, tg, true, fv2) := by
  have hiofv : interfaceOf fv = fv := interfaceOf_of_notIface hni
  have hty : goTypeOf (t fv) = goTypeOf fv := htype fv hni
  have hni2 : ifaceTopped (t fv) = false := by
    by_cases hc : ifaceTopped (t fv) = true
    · have h1 : goTypeOf (t fv) = .iface := (goTypeOf_iface_iff _).mpr hc
      rw [hty] at h1
      have h2 := (goTypeOf_iface_iff fv).mp h1
      rw [hni] at h2
      cases h2
    · simpa using hc
  have hio2 : interfaceOf (t fv) = t fv := interfaceOf_of_notIface hni2
  have hrv2 : rvOf (t fv) = some (t fv) := rvOf_of_notIface hni2
  have hit2 : t (t fv) = t fv := hidem fv (Or.inl hni)
  rw [redactField_sensitive_plain p t n tg fv (t fv) hsens hnp (by rw [hiofv]; exact hrv2)
    (by simp [assignableTo, hty, GoType.beq_refl]), goSet_of_beq (by rw [hty]; exact GoType.beq_refl _)] at h
  simp only [Option.map_some', Option.some.injEq, Prod.mk.injEq, true_and] at h
  subst h
  have hnp2 : ∀ q z, t fv ≠ .ptr q (some z) :=
    notPtrSome_of_type (fun q => by rw [hty]; exact hnpt q)
  rw [redactField_sensitive_plain p t n tg (t fv) (t fv) hsens hnp2
    (by rw [hio2, hit2]; exact hrv2) (by simp [assignableTo, GoType.beq_refl])]
  rw [goSet_of_beq (GoType.beq_refl _)]
  simp

theorem redactField_stable {p : String → Bool} {t : GoValue → GoValue}
    (hwrap : ∀ x, anyNormal x → anyNormal (t x))
    (htype : ∀ x, ifaceTopped x = false → goTypeOf (t x) = goTypeOf x)
    (hptrnil : ∀ pt, t (.ptr pt none) = .ptr pt none)
    (hidem : ∀ x, anyNormal x → t (t x) = t x)
    (n : String) (tg : List (String × String)) (ex : Bool) (fv : GoValue)
    (f2 : String × List (String × String) × Bool × GoValue)
    (hIH : ∀ w, redactRV p t fv = some w → redactRV p t w = some w)
    (h : redactField p t (n, tg, ex, fv) = some f2) :
    redactField p t f2 = some f2 := by
  obtain ⟨fv2, rfl⟩ := redactField_shape p t n tg ex fv f2 h
  cases ex with
  | false =>
    rw [redactField_unexported] at h
    simp only [Option.some.injEq, Prod.mk.injEq, true_and] at h
    subst h
    rw [redactField_unexported, goTypeOf_zeroValue]
  | true =>
    by_cases hsens : isFieldSensitive n tg p = true
    · -- sensitive field
      cases fv with
      | ptr pt oe =>
        cases oe with
        | some e =>
          cases hrv0 : rvOf (t (interfaceOf e)) with
          | none =>
            rw [redactField_sensitive_ptr_none p t n tg pt e hsens hrv0] at h
            cases h
          | some r0 =>
            obtain ⟨hr_eq, hni, hio, hrv, hit⟩ := t_some_facts hwrap hidem (interfaceOf e) r0
              (interfaceOf_anyNormal e) hrv0
            have hass := assignable_transform htype e
            rw [redactField_sensitive_ptr p t n tg pt e (t (interfaceOf e)) hsens hrv hass] at h
            cases hs : goSet (.ptr pt) (.ptr (goTypeOf (t (interfaceOf e))) (some (t (interfaceOf e)))) with
            | none => rw [hs] at h; simp at h
            | some fvx =>
              rw [hs] at h
              simp only [Option.map_some', Option.some.injEq, Prod.mk.injEq, true_and] at h
              subst h
              rcases goSet_cases _ _ _ hs with ⟨hbeq, rfl⟩ | ⟨hbeq, hdst, hy⟩
              · -- fv2 = .ptr (goTypeOf (t x0)) (some (t x0)); second pass
                rw [redactField_sensitive_ptr p t n tg (goTypeOf (t (interfaceOf e)))
                  (t (interfaceOf e)) (t (interfaceOf e)) hsens
                  (by rw [hio, hit]; exact hrv) (by simp [assignableTo, GoType.beq_refl])]
                rw [goSet_of_beq (by simp [goTypeOf, GoType.beq, GoType.beq_refl])]
                simp
              · cases hdst
        | none =>
          have hni : ifaceTopped (GoValue.ptr pt none) = false := by simp [ifaceTopped]
          have hio : interfaceOf (GoValue.ptr pt none) = .ptr pt none :=
            interfaceOf_of_notIface hni
          have hrv : rvOf (t (interfaceOf (GoValue.ptr pt none))) = some (.ptr pt none) := by
            rw [hio, hptrnil pt]
            exact rvOf_of_notIface hni
          have hnp : ∀ q z, GoValue.ptr pt none ≠ .ptr q (some z) := by
            intro q z hne
            cases hne
          have hass : assignableTo (goTypeOf (GoValue.ptr pt none))
              (goTypeOf (GoValue.ptr pt none)) = true := by
            simp [assignableTo, GoType.beq_refl]
          have heval : redactField p t (n, tg, true, .ptr pt none) =
              some (n, tg, true, .ptr pt none) := by
            rw [redactField_sensitive_plain p t n tg (.ptr pt none) (.ptr pt none) hsens hnp hrv hass]
            rw [goSet_of_beq (GoType.beq_refl _)]
            simp
          rw [heval] at h
          simp only [Option.some.injEq, Prod.mk.injEq, true_and] at h
          subst h
          exact heval
      | iface oe =>
        have hnp : ∀ q z, GoValue.iface oe ≠ .ptr q (some z) := by
          intro q z hne
          cases hne
        cases hrv0 : rvOf (t (interfaceOf (.iface oe))) with
        | none =>
          rw [redactField_sensitive_plain_none p t n tg (.iface oe) hsens hnp hrv0] at h
          cases h
        | some r0 =>
          obtain ⟨hr_eq, hni, hio, hrv, hit⟩ := t_some_facts hwrap hidem
            (interfaceOf (.iface oe)) r0 (interfaceOf_anyNormal (.iface oe)) hrv0
          have hass := assignable_transform htype (.iface oe)
          have hbeqif : GoType.beq (goTypeOf (t (interfaceOf (GoValue.iface oe)))) .iface = false := by
            apply GoType.beq_false_of_ne
            intro hcontra
            rw [goTypeOf_iface_iff] at hcontra
            rw [hni] at hcontra
            cases hcontra
          rw [redactField_sensitive_plain p t n tg (.iface oe) (t (interfaceOf (.iface oe)))
            hsens hnp hrv hass] at h
          have hgs : goSet (goTypeOf (GoValue.iface oe)) (t (interfaceOf (GoValue.iface oe))) =
              some (.iface (some (t (interfaceOf (GoValue.iface oe))))) := by
            unfold goSet
            rw [if_neg (by simp [goTypeOf, hbeqif]), if_pos (by simp [goTypeOf, GoType.beq])]
          rw [hgs] at h
          simp only [Option.map_some', Option.some.injEq, Prod.mk.injEq, true_and] at h
          subst h
          -- second pass on .iface (some (t x0))
          have hnp2 : ∀ q z, GoValue.iface (some (t (interfaceOf (GoValue.iface oe)))) ≠
              .ptr q (some z) := by
            intro q z hne
            cases hne
          rw [redactField_sensitive_plain p t n tg
            (.iface (some (t (interfaceOf (GoValue.iface oe)))))
            (t (interfaceOf (GoValue.iface oe))) hsens hnp2
            (by rw [interfaceOf_iface_some, hio, hit]; exact hrv)
            (by simp [assignableTo, goTypeOf, GoType.beq])]
          have hgs2 : goSet (goTypeOf (GoValue.iface (some (t (interfaceOf (GoValue.iface oe))))))
              (t (interfaceOf (GoValue.iface oe))) =
              some (.iface (some (t (interfaceOf (GoValue.iface oe))))) := by
            unfold goSet
            rw [if_neg (by simp [goTypeOf, hbeqif]), if_pos (by simp [goTypeOf, GoType.beq])]
          rw [hgs2]
          simp
      | str s =>
        exact redactField_stable_plain htype hidem n tg _ fv2 hsens
          (by simp [ifaceTopped]) (by intro q z hne; cases hne) (by intro q; simp [goTypeOf]) h
      | int m =>
        exact redactField_stable_plain htype hidem n tg _ fv2 hsens
          (by simp [ifaceTopped]) (by intro q z hne; cases hne) (by intro q; simp [goTypeOf]) h
      | bool b =>
        exact redactField_stable_plain htype hidem n tg _ fv2 hsens
          (by simp [ifaceTopped]) (by intro q z hne; cases hne) (by intro q; simp [goTypeOf]) h
      | strct fs =>
        exact redactField_stable_plain htype hidem n tg _ fv2 hsens
          (by simp [ifaceTopped]) (by intro q z hne; cases hne)
          (by intro q; rw [goTypeOf_strct]; intro hc; cases hc) h
      | map kt vt es =>
        exact redactField_stable_plain htype hidem n tg _ fv2 hsens
          (by simp [ifaceTopped]) (by intro q z hne; cases hne) (by intro q; simp [goTypeOf]) h
      | slice et c es =>
        exact redactField_stable_plain htype hidem n tg _ fv2 hsens
          (by simp [ifaceTopped]) (by intro q z hne; cases hne) (by intro q; simp [goTypeOf]) h
      | array et es =>
        exact redactField_stable_plain htype hidem n tg _ fv2 hsens
          (by simp [ifaceTopped]) (by intro q z hne; cases hne) (by intro q; simp [goTypeOf]) h
    · -- non-sensitive field
      have hsens2 : isFieldSensitive n tg p = false := by simpa using hsens
      rw [redactField_notSensitive p t n tg fv hsens2] at h
      cases hu : redactRV p t fv with
      | none => rw [hu] at h; simp at h
      | some red =>
        rw [hu] at h
        simp only [Option.some_bind] at h
        cases hs : goSet (goTypeOf fv) red with
        | none => rw [hs] at h; simp at h
        | some fvx =>
          rw [hs] at h
          simp only [Option.map_some', Option.some.injEq, Prod.mk.injEq, true_and] at h
          rw [← h]
          rcases goSet_cases _ _ _ hs with ⟨hbeq, heq⟩ | ⟨hbeq, hdst, heq⟩
          · rw [heq]
            rw [redactField_notSensitive p t n tg red hsens2, hIH red hu]
            simp only [Option.some_bind]
            rw [goSet_of_beq (GoType.beq_refl _)]
            simp
          · rw [hdst] at hbeq
            rw [heq]
            have h2 : redactRV p t (.iface (some red)) = some red := by
              rw [redactRV_iface_some]; exact hIH red hu
            rw [redactField_notSensitive p t n tg (.iface (some red)) hsens2, h2]
            simp only [Option.some_bind]
            have hgt : goTypeOf (GoValue.iface (some red)) = .iface := by simp [goTypeOf]
            have hgs2 : goSet (goTypeOf (GoValue.iface (some red))) red =
                some (.iface (some red)) := by
              unfold goSet
              rw [hgt]
              rw [if_neg (by simp [hbeq]), if_pos (by simp [GoType.beq])]
            rw [hgs2]
            simp

theorem redactFields_stable {p : String → Bool} {t : GoValue → GoValue}
    (hwrap : ∀ x, anyNormal x → anyNormal (t x))
    (htype : ∀ x, ifaceTopped x = false → goTypeOf (t x) = goTypeOf x)
    (hptrnil : ∀ pt, t (.ptr pt none) = .ptr pt none)
    (hidem : ∀ x, anyNormal x → t (t x) = t x) :
    ∀ fs fs2, (∀ f ∈ fs, ∀ w, redactRV p t f.2.2.2 = some w → redactRV p t w = some w) →
      redactFields p t fs = some fs2 → redactFields p t fs2 = some fs2 := by
  intro fs
  induction fs with
  | nil =>
    intro fs2 hmem h
    simp [redactFields] at h
    subst h
    simp [redactFields]
  | cons f rest ih =>
    intro fs2 hmem h
    rcases hf : redactField p t f with _ | f2
    · simp [redactFields, hf] at h
    · rcases hrest : redactFields p t rest with _ | rest2
      · simp [redactFields, hf, hrest] at h
      · simp [redactFields, hf, hrest] at h
        subst h
        obtain ⟨n, tg, ex, fv⟩ := f
        have hf' := redactField_stable hwrap htype hptrnil hidem n tg ex fv f2
          (fun w hw => hmem (n, tg, ex, fv) (List.mem_cons_self _ _) w hw) hf
        have hrest' := ih rest2 (fun f3 hf3 => hmem f3 (List.mem_cons_of_mem _ hf3)) hrest
        simp [redactFields, hf', hrest']

/-- Core stability: a successfully redacted value is a fixed point of redaction, for
transforms that behave like Go func(any)any values: hwrap — the result of a
representable argument is again a representable any (a concrete value or nil);
htype — the dynamic type of a non-nil argument is preserved; hptrnil — nil pointer
arguments are returned unchanged; hidem — idempotent on representable arguments. -/
theorem redactRV_stable {p : String → Bool} {t : GoValue → GoValue}
    (hwrap : ∀ x, anyNormal x → anyNormal (t x))
    (htype : ∀ x, ifaceTopped x = false → goTypeOf (t x) = goTypeOf x)
    (hptrnil : ∀ pt, t (.ptr pt none) = .ptr pt none)
    (hidem : ∀ x, anyNormal x → t (t x) = t x) :
    ∀ v w, redactRV p t v = some w → redactRV p t w = some w := by
  intro v
  induction v using GoValue.valueInd with
  | hstr s =>
    intro w h
    simp [redactRV] at h
    subst h
    simp [redactRV]
  | hint m =>
    intro w h
    simp [redactRV] at h
    subst h
    simp [redactRV]
  | hbool b =>
    intro w h
    simp [redactRV] at h
    subst h
    simp [redactRV]
  | hptrN pt =>
    intro w h
    simp [redactRV] at h
    subst h
    simp [redactRV]
  | hptrS pt e ih =>
    intro w h
    rcases hr : redactRV p t e with _ | r
    · simp [redactRV, hr] at h
    · simp [redactRV, hr] at h
      subst h
      simp [redactRV, ih r hr]
  | hifN =>
    intro w h
    simp [redactRV] at h
    subst h
    simp [redactRV]
  | hifS e ih =>
    intro w h
    rw [redactRV_iface_some] at h
    exact ih w h
  | hstrct fs ihf =>
    intro w h
    rcases hfs : redactFields p t fs with _ | fs2
    · simp [redactRV, hfs] at h
    · simp [redactRV, hfs] at h
      subst h
      have := redactFields_stable hwrap htype hptrnil hidem fs fs2 ihf hfs
      simp [redactRV, this]
  | hmapN kt vt =>
    intro w h
    simp [redactRV] at h
    subst h
    simp [redactRV]
  | hmapS kt vt es ihe =>
    intro w h
    rcases hes : redactEntries p t vt es with _ | es2
    · simp [redactRV, hes] at h
    · simp [redactRV, hes] at h
      subst h
      have := redactEntries_stable hwrap hidem vt es es2 (fun e he => (ihe e he).2) hes
      simp [redactRV, this]
  | hsliceN et c =>
    intro w h
    simp [redactRV] at h
    subst h
    simp [redactRV]
  | hsliceS et c es ihe =>
    intro w h
    rcases hes : redactElems p t et es with _ | es2
    · simp [redactRV, hes] at h
    · simp [redactRV, hes] at h
      subst h
      have := redactElems_stable et es es2 ihe hes
      simp [redactRV, this]
  | harr et es ihe =>
    intro w h
    rcases hes : redactElems p t et es with _ | es2
    · simp [redactRV, hes] at h
    · simp [redactRV, hes] at h
      subst h
      have := redactElems_stable et es es2 ihe hes
      simp [redactRV, this]

/-- An idempotent transform that changes the dynamic type of one struct value. -/
def t9 : GoValue → GoValue := fun x =>
  match x with
  | .strct [("P", [], true, .str "x")] => .int 7
  | .str "x" => .str "R"
  | .strct [("P", [], true, .str "R")] => .strct [("P", [], true, .str "Z")]
  | y => y

def p9 : String → Bool := fun s => s == "F" || s == "P"

def v9 : GoValue := .strct [("F", [], true, .strct [("P", [], true, .str "x")])]

def v9a : GoValue := .strct [("F", [], true, .strct [("P", [], true, .str "R")])]

def v9b : GoValue := .strct [("F", [], true, .strct [("P", [], true, .str "Z")])]

/-- C9 as stated is false: t9 is idempotent (t9 (t9 x) = t9 x for all x), yet re-redacting
the result of a redaction changes it again. On the first pass the sensitive field F's
transform result (an int) fails the assignability check and the fallback recursive
redaction stores {P:"R"}; on the second pass the transform result for {P:"R"} is the
same-typed {P:"Z"}, which now passes the check and replaces the field. -/
theorem C9_counterexample :
    (∀ x, t9 (t9 x) = t9 x) ∧
    redactRV p9 t9 v9 = some v9a ∧
    redactRV p9 t9 v9a = some v9b ∧
    (redactRV p9 t9 v9).bind (redactRV p9 t9) ≠ redactRV p9 t9 v9 := by
  have hc : ∀ y, t9 y = .int 7 ∨ t9 y = .str "R" ∨
      t9 y = .strct [("P", [], true, .str "Z")] ∨ t9 y = y := by
    intro y
    unfold t9
    split
    · left; rfl
    · right; left; rfl
    · right; right; left; rfl
    · right; right; right; rfl
  have hidem : ∀ x, t9 (t9 x) = t9 x := by
    intro x
    rcases hc x with h | h | h | h <;> rw [h]
    · rfl
    · rfl
    · rfl
    · exact h
  have h1 : redactRV p9 t9 v9 = some v9a := by
    simp [redactRV, redactFields, redactField, isFieldSensitive, sensitiveByTags, tagNames,
      tagGet, tagHeadName, interfaceOf, rvOf, assignableTo, goSet, goTypeOf_strct, goTypeOf,
      GoType.beq, GoType.beqFields, p9, t9, v9, v9a]
  have h2 : redactRV p9 t9 v9a = some v9b := by
    simp [redactRV, redactFields, redactField, isFieldSensitive, sensitiveByTags, tagNames,
      tagGet, tagHeadName, interfaceOf, rvOf, assignableTo, goSet, goTypeOf_strct, goTypeOf,
      GoType.beq, GoType.beqFields, p9, t9, v9a, v9b]
  refine ⟨hidem, h1, h2, ?_⟩
  rw [h1]
  simp only [Option.some_bind, h2]
  simp [v9a, v9b]

/-- C9 (amended): re-redacting a redacted value is the identity — equivalently
redact(redact(v)) = redact(v) in the Option monad — provided the transform behaves like
a well-formed Go func(any) any that, besides being idempotent, returns well-formed any
values (a concrete value or nil, never a doubly wrapped interface), preserves the
dynamic type of non-nil arguments, and returns nil pointer arguments unchanged. The
counterexample shows the claim fails without type preservation; a transform that turns
a nil pointer into a non-nil one similarly breaks it via the pointer special case. -/
theorem C9_idempotenceAmended (p : String → Bool) (t : GoValue → GoValue)
    (hwrap : ∀ x, anyNormal x → anyNormal (t x))
    (htype : ∀ x, ifaceTopped x = false → goTypeOf (t x) = goTypeOf x)
    (hptrnil : ∀ pt, t (.ptr pt none) = .ptr pt none)
    (hidem : ∀ x, anyNormal x → t (t x) = t x)
    (v : GoValue) :
    (redactRV p t v).bind (redactRV p t) = redactRV p t v := by
  cases h : redactRV p t v with
  | none => rfl
  | some w =>
    simp only [Option.some_bind]
    exact redactRV_stable hwrap htype hptrnil hidem v w h

def tW : GoValue → GoValue := fun x =>
  match x with
  | .str _ => .str "***"
  | .iface _ => .bool true
  | y => y

theorem C9_idempotenceAmended_witness :
    (redactRV (fun s => s == "Password") tW
        (.strct [("Password", [], true, .str "secret")])).bind
      (redactRV (fun s => s == "Password") tW) =
    redactRV (fun s => s == "Password") tW (.strct [("Password", [], true, .str "secret")]) :=
  C9_idempotenceAmended (fun s => s == "Password") tW
    (by intro x hx; cases x <;> exact Or.inl (by simp [tW, ifaceTopped]))
    (by intro x hx
        cases x with
        | iface oe => simp [ifaceTopped] at hx
        | str s => simp [tW, goTypeOf]
        | int m => simp [tW]
        | bool b => simp [tW]
        | ptr pt oe => simp [tW]
        | strct fs => simp [tW]
        | map kt vt es => simp [tW]
        | slice et c es => simp [tW]
        | array et es => simp [tW])
    (by intro pt; simp [tW])
    (by intro x hx; cases x <;> simp [tW])
    (.strct [("Password", [], true, .str "secret")])

/-! Store model. To settle the non-mutation claim, the same code is embedded a second
time over an explicit store: pointer targets, slice backing arrays and map contents are
mutable cells addressed by naturals, and every reflect write (Set on a New'd pointer,
Set on a MakeSlice element, SetMapIndex on a MakeMap result) is an explicit store
operation, so that "the original input is never written" is a real statement about
which addresses the writes target. Recursion is fuelled, since a cyclic store makes the
Go code recurse forever. -/

/-- Heap-level Go values: pointers, slices and maps refer to store cells; structs,
arrays and interfaces are inline (Go treats them as values). `slice et len cap a`. -/
inductive HVal : Type where
  | str : String → HVal
  | int : Int → HVal
  | bool : Bool → HVal
  | ptr : GoType → Option Nat → HVal
  | iface : Option HVal → HVal
  | strct : List (String × List (String × String) × Bool × HVal) → HVal
  | map : GoType → GoType → Option Nat → HVal
  | slice : GoType → Nat → Nat → Option Nat → HVal
  | array : GoType → List HVal → HVal

/-- A store cell: a pointer target, a slice backing array, or map contents. -/
inductive HCell : Type where
  | cell : HVal → HCell
  | arr : List HVal → HCell
  | mp : List (HVal × HVal) → HCell

abbrev Store := List HCell

def allocCell (σ : Store) (c : HCell) : Store × Nat := (σ ++ [c], σ.length)

def setCellAt (σ : Store) (a : Nat) (c : HCell) : Store := σ.set a c

def getCellAt (σ : Store) (a : Nat) : Option HCell := σ.get? a

theorem sizeOf_hfieldVal_lt (fs : List (String × List (String × String) × Bool × HVal))
    (f : String × List (String × String) × Bool × HVal) (h : f ∈ fs) :
    sizeOf f.2.2.2 < sizeOf fs := by
  have h1 := List.sizeOf_lt_of_mem h
  obtain ⟨a, b, c, d⟩ := f
  simp at h1 ⊢
  omega

/-- The runtime type of a heap value. -/
def typeOfH : HVal → GoType
  | .str _ => .str
  | .int _ => .int
  | .bool _ => .bool
  | .ptr t _ => .ptr t
  | .iface _ => .iface
  | .strct fs => .strct (fs.attach.map (fun f => (f.1.1, f.1.2.1, f.1.2.2.1, typeOfH f.1.2.2.2)))
  | .map kt vt _ => .map kt vt
  | .slice et len _ _ => GoType.slice et
  | .array et es => .array es.length et
termination_by v => sizeOf v
decreasing_by
  have := sizeOf_hfieldVal_lt fs f.1 f.2
  simp
  omega

def interfaceOfH : HVal → HVal
  | .iface (some x) => interfaceOfH x
  | .iface none => .iface none
  | v => v

def rvOfH : HVal → Option HVal
  | .iface none => none
  | .iface (some x) => rvOfH x
  | v => some v

def goSetH (dst : GoType) (x : HVal) : Option HVal :=
  if GoType.beq (typeOfH x) dst then some x
  else if GoType.beq dst .iface then some (.iface (some x))
  else none

def keyStrOfH (k : HVal) : String :=
  match k with
  | .str s => s
  | k =>
    match rvOfH (interfaceOfH k) with
    | none => "<invalid Value>"
    | some (.str s) => s
    | some v => "<" ++ goTypeName (typeOfH v) ++ " Value>"

/-- Zero heap value of a type; allocates nothing (zero pointers/maps/slices are nil). -/
def zeroH : GoType → HVal
  | .str => .str ""
  | .int => .int 0
  | .bool => .bool false
  | .iface => .iface none
  | .ptr t => .ptr t none
  | .map kt vt => .map kt vt none
  | .slice et => .slice et 0 0 none
  | .array n et => .array et (List.replicate n (zeroH et))
  | .strct fs => .strct (fs.attach.map (fun f => (f.1.1, f.1.2.1, f.1.2.2.1, zeroH f.1.2.2.2)))
termination_by t => sizeOf t
decreasing_by
  all_goals first
    | (rename_i fs0; have := sizeOf_fieldTy_lt fs0 f.1 f.2; simp; omega)
    | (simp; omega)
    | simp

/-- SetMapIndex on the fresh result map: appends the binding (keys of the iterated Go
map are distinct, so append agrees with Go's replace-or-insert). -/
def mapSetAt (σ : Store) (a : Nat) (k r : HVal) : Store :=
  match getCellAt σ a with
  | some (.mp es) => setCellAt σ a (.mp (es ++ [(k, r)]))
  | _ => σ

/-- result.Index(i).Set on the fresh backing array. -/
def arrSetAt (σ : Store) (a : Nat) (i : Nat) (x : HVal) : Store :=
  match getCellAt σ a with
  | some (.arr es) => setCellAt σ a (.arr (es.set i x))
  | _ => σ

mutual

/-- redactReflectValue over the store (redact.go lines 56-203); the map keys and the
iterated entries/elements are snapshot reads of the input cells. none models a panic,
a dangling address, or fuel exhaustion. -/
def redactS (p : String → Bool) (t : HVal → HVal) :
    Nat → Store → HVal → Option (Store × HVal)
  | 0, _, _ => none
  | _ + 1, σ, .ptr pt none => some (σ, .ptr pt none)
  | fuel + 1, σ, .ptr _ (some a) =>
    (match getCellAt σ a with
    | some (.cell e) =>
      match redactS p t fuel σ e with
      | some (σ1, r) =>
        match allocCell σ1 (.cell (zeroH (typeOfH r))) with
        | (σ2, a2) => some (setCellAt σ2 a2 (.cell r), .ptr (typeOfH r) (some a2))
      | none => none
    | _ => none)
  | _ + 1, σ, .iface none => some (σ, .iface none)
  | fuel + 1, σ, .iface (some e) => redactS p t fuel σ e
  | fuel + 1, σ, .strct fs =>
    (match redactFieldsS p t fuel σ fs with
    | some (σ1, fs2) => some (σ1, .strct fs2)
    | none => none)
  | _ + 1, σ, .map kt vt none => some (σ, .map kt vt none)
  | fuel + 1, σ, .map kt vt (some a) =>
    (match getCellAt σ a with
    | some (.mp es) =>
      match allocCell σ (.mp []) with
      | (σ1, a2) =>
        match redactEntriesS p t fuel vt σ1 a2 es with
        | some σ2 => some (σ2, .map kt vt (some a2))
        | none => none
    | _ => none)
  | _ + 1, σ, .slice et len cap none => some (σ, .slice et len cap none)
  | fuel + 1, σ, .slice et len cap (some a) =>
    (match getCellAt σ a with
    | some (.arr es) =>
      match allocCell σ (.arr (List.replicate es.length (zeroH et))) with
      | (σ1, a2) =>
        match redactElemsS p t fuel et σ1 a2 0 es with
        | some σ2 => some (σ2, .slice et len cap (some a2))
        | none => none
    | _ => none)
  | fuel + 1, σ, .array et es =>
    (match redactArrS p t fuel et σ es with
    | some (σ1, es2) => some (σ1, .array et es2)
    | none => none)
  | _ + 1, σ, .str s => some (σ, .str s)
  | _ + 1, σ, .int n => some (σ, .int n)
  | _ + 1, σ, .bool b => some (σ, .bool b)

/-- One struct field over the store (redact.go lines 85-135). -/
def redactFieldS (p : String → Bool) (t : HVal → HVal) :
    Nat → Store → String × List (String × String) × Bool × HVal → Option (Store × HVal)
  | 0, _, _ => none
  | fuel + 1, σ, (n, tg, exported, fv) =>
    if exported then
      if isFieldSensitive n tg p then
        match fv with
        | .ptr pt (some aE) =>
          (match getCellAt σ aE with
          | some (.cell e) =>
            (match rvOfH (t (interfaceOfH e)) with
            | none => none
            | some r =>
              if assignableTo (typeOfH r) (typeOfH e) then
                match allocCell σ (.cell (zeroH (typeOfH r))) with
                | (σ1, a2) =>
                  match goSetH (.ptr pt) (.ptr (typeOfH r) (some a2)) with
                  | none => none
                  | some fv2 => some (setCellAt σ1 a2 (.cell r), fv2)
              else
                match redactS p t fuel σ (.ptr pt (some aE)) with
                | none => none
                | some (σ1, red) =>
                  match goSetH (.ptr pt) red with
                  | none => none
                  | some fv2 => some (σ1, fv2))
          | _ => none)
        | fv =>
          (match rvOfH (t (interfaceOfH fv)) with
          | none => none
          | some r =>
            if assignableTo (typeOfH r) (typeOfH fv) then
              match goSetH (typeOfH fv) r with
              | none => none
              | some fv2 => some (σ, fv2)
            else
              match redactS p t fuel σ fv with
              | none => none
              | some (σ1, red) =>
                match goSetH (typeOfH fv) red with
                | none => none
                | some fv2 => some (σ1, fv2))
      else
        match redactS p t fuel σ fv with
        | none => none
        | some (σ1, red) =>
          match goSetH (typeOfH fv) red with
          | none => none
          | some fv2 => some (σ1, fv2)
    else
      some (σ, zeroH (typeOfH fv))

/-- Struct fields over the store (redact.go lines 85-135). -/
def redactFieldsS (p : String → Bool) (t : HVal → HVal) :
    Nat → Store → List (String × List (String × String) × Bool × HVal) →
    Option (Store × List (String × List (String × String) × Bool × HVal))
  | 0, _, _ => none
  | _ + 1, σ, [] => some (σ, [])
  | fuel + 1, σ, (n, tg, exported, fv) :: rest =>
    (match redactFieldS p t fuel σ (n, tg, exported, fv) with
    | none => none
    | some (σ1, fv2) =>
      match redactFieldsS p t fuel σ1 rest with
      | none => none
      | some (σ2, rest2) => some (σ2, (n, tg, exported, fv2) :: rest2))

/-- Map entries over the store (redact.go lines 145-168), writing into the fresh map
cell dstA. -/
def redactEntriesS (p : String → Bool) (t : HVal → HVal) :
    Nat → GoType → Store → Nat → List (HVal × HVal) → Option Store
  | 0, _, _, _, _ => none
  | _ + 1, _, σ, _, [] => some σ
  | fuel + 1, vt, σ, dstA, (k, v) :: rest =>
    let ks := keyStrOfH k
    if ks ≠ "" && p ks then
      (match rvOfH (t (interfaceOfH v)) with
      | none => redactEntriesS p t fuel vt σ dstA rest
      | some r =>
        match goSetH vt r with
        | none => none
        | some r2 => redactEntriesS p t fuel vt (mapSetAt σ dstA k r2) dstA rest)
    else
      match redactS p t fuel σ v with
      | none => none
      | some (σ1, red) =>
        match goSetH vt red with
        | none => none
        | some r2 => redactEntriesS p t fuel vt (mapSetAt σ1 dstA k r2) dstA rest

/-- Slice elements over the store (redact.go lines 178-182), writing into the fresh
backing cell dstA at successive indices. -/
def redactElemsS (p : String → Bool) (t : HVal → HVal) :
    Nat → GoType → Store → Nat → Nat → List HVal → Option Store
  | 0, _, _, _, _, _ => none
  | _ + 1, _, σ, _, _, [] => some σ
  | fuel + 1, et, σ, dstA, i, e :: rest =>
    (match redactS p t fuel σ e with
    | none => none
    | some (σ1, r) =>
      match goSetH et r with
      | none => none
      | some r2 => redactElemsS p t fuel et (arrSetAt σ1 dstA i r2) dstA (i + 1) rest)

/-- Array elements (redact.go lines 188-192): the result array is an inline local, so
no store cell is written. -/
def redactArrS (p : String → Bool) (t : HVal → HVal) :
    Nat → GoType → Store → List HVal → Option (Store × List HVal)
  | 0, _, _, _ => none
  | _ + 1, _, σ, [] => some (σ, [])
  | fuel + 1, et, σ, e :: rest =>
    (match redactS p t fuel σ e with
    | none => none
    | some (σ1, r) =>
      match goSetH et r with
      | none => none
      | some r2 =>
        match redactArrS p t fuel et σ1 rest with
        | none => none
        | some (σ2, rest2) => some (σ2, r2 :: rest2))

end

/-- The store grew and every pre-existing cell is untouched. -/
def storeExt (σ σ2 : Store) : Prop :=
  σ.length ≤ σ2.length ∧ ∀ a, a < σ.length → σ2.get? a = σ.get? a

/-- Like storeExt but one designated (freshly allocated) cell may have been written. -/
def storeExtX (x : Nat) (σ σ2 : Store) : Prop :=
  σ.length ≤ σ2.length ∧ ∀ a, a < σ.length → a ≠ x → σ2.get? a = σ.get? a

theorem storeExt_refl (σ : Store) : storeExt σ σ := ⟨Nat.le_refl _, fun _ _ => rfl⟩

theorem storeExt_trans {σ σ1 σ2 : Store} (h1 : storeExt σ σ1) (h2 : storeExt σ1 σ2) :
    storeExt σ σ2 := by
  refine ⟨Nat.le_trans h1.1 h2.1, fun a ha => ?_⟩
  rw [h2.2 a (Nat.lt_of_lt_of_le ha h1.1), h1.2 a ha]

theorem storeExt_alloc (σ : Store) (c : HCell) : storeExt σ (σ ++ [c]) := by
  refine ⟨by simp, fun a ha => ?_⟩
  exact List.get?_append ha

theorem storeExtX_of {x : Nat} {σ σ2 : Store} (h : storeExt σ σ2) : storeExtX x σ σ2 :=
  ⟨h.1, fun a ha _ => h.2 a ha⟩

theorem storeExtX_trans {x : Nat} {σ σ1 σ2 : Store} (h1 : storeExtX x σ σ1)
    (h2 : storeExtX x σ1 σ2) : storeExtX x σ σ2 := by
  refine ⟨Nat.le_trans h1.1 h2.1, fun a ha hax => ?_⟩
  rw [h2.2 a (Nat.lt_of_lt_of_le ha h1.1) hax, h1.2 a ha hax]

theorem storeExt_setCellAt_high {σ σ2 : Store} {a2 : Nat} (h : storeExt σ σ2)
    (ha2 : σ.length ≤ a2) (c : HCell) : storeExt σ (setCellAt σ2 a2 c) := by
  refine ⟨by unfold setCellAt; simp [h.1], fun a ha => ?_⟩
  unfold setCellAt
  rw [List.get?_set_ne _ _ (by omega), h.2 a ha]

theorem storeExtX_setCellAt_self {x : Nat} {σ σ2 : Store} (h : storeExtX x σ σ2)
    (c : HCell) : storeExtX x σ (setCellAt σ2 x c) := by
  refine ⟨by unfold setCellAt; simp [h.1], fun a ha hax => ?_⟩
  unfold setCellAt
  rw [List.get?_set_ne _ _ (by omega), h.2 a ha hax]

theorem storeExtX_mapSetAt {x : Nat} {σ σ2 : Store} (h : storeExtX x σ σ2) (k r : HVal) :
    storeExtX x σ (mapSetAt σ2 x k r) := by
  unfold mapSetAt
  cases hg : getCellAt σ2 x with
  | none => exact h
  | some c =>
    cases c with
    | cell v => exact h
    | arr es => exact h
    | mp es => exact storeExtX_setCellAt_self h _

theorem storeExtX_arrSetAt {x : Nat} {σ σ2 : Store} (h : storeExtX x σ σ2) (i : Nat)
    (r : HVal) : storeExtX x σ (arrSetAt σ2 x i r) := by
  unfold arrSetAt
  cases hg : getCellAt σ2 x with
  | none => exact h
  | some c =>
    cases c with
    | cell v => exact h
    | arr es => exact storeExtX_setCellAt_self h _
    | mp es => exact h

/-- Leaving a fresh-cell loop: if only the new cell (allocated at the old end) was
written beyond extension, the original prefix is intact. -/
theorem storeExt_of_loop {σ σ2 : Store} {c : HCell}
    (h : storeExtX σ.length (σ ++ [c]) σ2) : storeExt σ σ2 := by
  have h0 := storeExt_alloc σ c
  refine ⟨?_, fun a ha => ?_⟩
  · have h2 := h.1
    simp at h2
    omega
  · have h1 : a < (σ ++ [c]).length := by simp; omega
    rw [h.2 a h1 (by omega), h0.2 a ha]

/-- Frame property for the else arm of the sensitive field branch. -/
theorem redactFieldS_else_frame {p : String → Bool} {t : HVal → HVal} {fuel : Nat}
    (ihS : ∀ (σ : Store) (v : HVal) σ2 w, redactS p t fuel σ v = some (σ2, w) → storeExt σ σ2)
    (σ : Store) (fv : HVal) (σ2 : Store) (fv2 : HVal)
    (h : (match rvOfH (t (interfaceOfH fv)) with
      | none => none
      | some r =>
        if assignableTo (typeOfH r) (typeOfH fv) then
          match goSetH (typeOfH fv) r with
          | none => none
          | some fv2 => some (σ, fv2)
        else
          match redactS p t fuel σ fv with
          | none => none
          | some (σ1, red) =>
            match goSetH (typeOfH fv) red with
            | none => none
            | some fv2 => some (σ1, fv2)) = some (σ2, fv2)) :
    storeExt σ σ2 := by
  cases hrv : rvOfH (t (interfaceOfH fv)) with
  | none => rw [hrv] at h; simp at h
  | some r =>
    rw [hrv] at h
    dsimp only at h
    by_cases hass : assignableTo (typeOfH r) (typeOfH fv) = true
    · rw [if_pos hass] at h
      cases hgs : goSetH (typeOfH fv) r with
      | none => rw [hgs] at h; simp at h
      | some fvx =>
        rw [hgs] at h
        simp only [Option.some.injEq, Prod.mk.injEq] at h
        obtain ⟨rfl, rfl⟩ := h
        exact storeExt_refl σ
    · rw [if_neg hass] at h
      cases hr : redactS p t fuel σ fv with
      | none => rw [hr] at h; simp at h
      | some pr =>
        obtain ⟨σ1, red⟩ := pr
        rw [hr] at h
        dsimp only at h
        cases hgs : goSetH (typeOfH fv) red with
        | none => rw [hgs] at h; simp at h
        | some fvx =>
          rw [hgs] at h
          simp only [Option.some.injEq, Prod.mk.injEq] at h
          obtain ⟨rfl, rfl⟩ := h
          exact ihS σ fv σ1 red hr

/-- The writes of one pass never target a pre-existing store cell: every function of the
store model only extends the store and writes freshly allocated cells. -/
theorem storeFrames : ∀ fuel : Nat,
    (∀ (p : String → Bool) (t : HVal → HVal) (σ : Store) (v : HVal) σ2 w,
      redactS p t fuel σ v = some (σ2, w) → storeExt σ σ2) ∧
    (∀ (p : String → Bool) (t : HVal → HVal) (σ : Store) f σ2 fv2,
      redactFieldS p t fuel σ f = some (σ2, fv2) → storeExt σ σ2) ∧
    (∀ (p : String → Bool) (t : HVal → HVal) (σ : Store) fs σ2 fs2,
      redactFieldsS p t fuel σ fs = some (σ2, fs2) → storeExt σ σ2) ∧
    (∀ (p : String → Bool) (t : HVal → HVal) vt (σ : Store) dstA es σ2,
      redactEntriesS p t fuel vt σ dstA es = some σ2 → storeExtX dstA σ σ2) ∧
    (∀ (p : String → Bool) (t : HVal → HVal) et (σ : Store) dstA i es σ2,
      redactElemsS p t fuel et σ dstA i es = some σ2 → storeExtX dstA σ σ2) ∧
    (∀ (p : String → Bool) (t : HVal → HVal) et (σ : Store) es σ2 es2,
      redactArrS p t fuel et σ es = some (σ2, es2) → storeExt σ σ2) := by
  intro fuel
  induction fuel with
  | zero =>
    refine ⟨?_, ?_, ?_, ?_, ?_, ?_⟩ <;> intros <;>
      simp_all [redactS, redactFieldS, redactFieldsS, redactEntriesS, redactElemsS, redactArrS]
  | succ fuel ih =>
    obtain ⟨ihS, ihF, ihFs, ihE, ihL, ihA⟩ := ih
    have ihS' : ∀ (p : String → Bool) (t : HVal → HVal) (σ : Store) (v : HVal) σ2 w,
        redactS p t fuel σ v = some (σ2, w) → storeExt σ σ2 := ihS
    refine ⟨?_, ?_, ?_, ?_, ?_, ?_⟩
    · -- redactS
      intro p t σ v σ2 w h
      cases v with
      | str s =>
        simp only [redactS, Option.some.injEq, Prod.mk.injEq] at h
        obtain ⟨rfl, rfl⟩ := h
        exact storeExt_refl σ
      | int n =>
        simp only [redactS, Option.some.injEq, Prod.mk.injEq] at h
        obtain ⟨rfl, rfl⟩ := h
        exact storeExt_refl σ
      | bool b =>
        simp only [redactS, Option.some.injEq, Prod.mk.injEq] at h
        obtain ⟨rfl, rfl⟩ := h
        exact storeExt_refl σ
      | ptr pt oa =>
        cases oa with
        | none =>
          simp only [redactS, Option.some.injEq, Prod.mk.injEq] at h
          obtain ⟨rfl, rfl⟩ := h
          exact storeExt_refl σ
        | some a =>
          simp only [redactS] at h
          cases hg : getCellAt σ a with
          | none => rw [hg] at h; simp at h
          | some c =>
            rw [hg] at h
            cases c with
            | arr es => simp at h
            | mp es => simp at h
            | cell e =>
              dsimp only at h
              cases hr : redactS p t fuel σ e with
              | none => rw [hr] at h; simp at h
              | some pr =>
                obtain ⟨σ1, r⟩ := pr
                rw [hr] at h
                simp only [allocCell, Option.some.injEq, Prod.mk.injEq] at h
                obtain ⟨rfl, rfl⟩ := h
                exact storeExt_setCellAt_high
                  (storeExt_trans (ihS p t σ e σ1 r hr) (storeExt_alloc σ1 _))
                  (ihS p t σ e σ1 r hr).1 _
      | iface oe =>
        cases oe with
        | none =>
          simp only [redactS, Option.some.injEq, Prod.mk.injEq] at h
          obtain ⟨rfl, rfl⟩ := h
          exact storeExt_refl σ
        | some e =>
          simp only [redactS] at h
          exact ihS p t σ e σ2 w h
      | strct fs =>
        simp only [redactS] at h
        cases hf : redactFieldsS p t fuel σ fs with
        | none => rw [hf] at h; simp at h
        | some pr =>
          obtain ⟨σ1, fs2⟩ := pr
          rw [hf] at h
          simp only [Option.some.injEq, Prod.mk.injEq] at h
          obtain ⟨rfl, rfl⟩ := h
          exact ihFs p t σ fs σ1 fs2 hf
      | map kt vt oa =>
        cases oa with
        | none =>
          simp only [redactS, Option.some.injEq, Prod.mk.injEq] at h
          obtain ⟨rfl, rfl⟩ := h
          exact storeExt_refl σ
        | some a =>
          simp only [redactS] at h
          cases hg : getCellAt σ a with
          | none => rw [hg] at h; simp at h
          | some c =>
            rw [hg] at h
            cases c with
            | cell e => simp at h
            | arr es => simp at h
            | mp es =>
              simp only [allocCell] at h
              cases he : redactEntriesS p t fuel vt (σ ++ [.mp []]) σ.length es with
              | none => rw [he] at h; simp at h
              | some σ3 =>
                rw [he] at h
                simp only [Option.some.injEq, Prod.mk.injEq] at h
                obtain ⟨rfl, rfl⟩ := h
                exact storeExt_of_loop (ihE p t vt (σ ++ [.mp []]) σ.length es σ3 he)
      | slice et len cap oa =>
        cases oa with
        | none =>
          simp only [redactS, Option.some.injEq, Prod.mk.injEq] at h
          obtain ⟨rfl, rfl⟩ := h
          exact storeExt_refl σ
        | some a =>
          simp only [redactS] at h
          cases hg : getCellAt σ a with
          | none => rw [hg] at h; simp at h
          | some c =>
            rw [hg] at h
            cases c with
            | cell e => simp at h
            | mp es => simp at h
            | arr es =>
              simp only [allocCell] at h
              cases he : redactElemsS p t fuel et
                  (σ ++ [.arr (List.replicate es.length (zeroH et))]) σ.length 0 es with
              | none => rw [he] at h; simp at h
              | some σ3 =>
                rw [he] at h
                simp only [Option.some.injEq, Prod.mk.injEq] at h
                obtain ⟨rfl, rfl⟩ := h
                exact storeExt_of_loop
                  (ihL p t et (σ ++ [.arr (List.replicate es.length (zeroH et))])
                    σ.length 0 es σ3 he)
      | array et es =>
        simp only [redactS] at h
        cases ha : redactArrS p t fuel et σ es with
        | none => rw [ha] at h; simp at h
        | some pr =>
          obtain ⟨σ1, es2⟩ := pr
          rw [ha] at h
          simp only [Option.some.injEq, Prod.mk.injEq] at h
          obtain ⟨rfl, rfl⟩ := h
          exact ihA p t et σ es σ1 es2 ha
    · -- redactFieldS
      intro p t σ f σ2 fv2 h
      obtain ⟨n, tg, ex, fv⟩ := f
      simp only [redactFieldS] at h
      cases ex with
      | false =>
        simp only [Bool.false_eq_true, if_false, Option.some.injEq, Prod.mk.injEq] at h
        obtain ⟨rfl, rfl⟩ := h
        exact storeExt_refl σ
      | true =>
        rw [if_pos rfl] at h
        by_cases hsens : isFieldSensitive n tg p = true
        · rw [if_pos hsens] at h
          cases fv with
          | ptr pt oa =>
            cases oa with
            | some aE =>
              dsimp only at h
              cases hg : getCellAt σ aE with
              | none => rw [hg] at h; simp at h
              | some c =>
                rw [hg] at h
                cases c with
                | arr es => simp at h
                | mp es => simp at h
                | cell e =>
                  dsimp only at h
                  cases hrv : rvOfH (t (interfaceOfH e)) with
                  | none => rw [hrv] at h; simp at h
                  | some r =>
                    rw [hrv] at h
                    dsimp only at h
                    by_cases hass : assignableTo (typeOfH r) (typeOfH e) = true
                    · rw [if_pos hass] at h
                      simp only [allocCell] at h
                      cases hgs : goSetH (.ptr pt) (.ptr (typeOfH r) (some σ.length)) with
                      | none => rw [hgs] at h; simp at h
                      | some fvx =>
                        rw [hgs] at h
                        simp only [Option.some.injEq, Prod.mk.injEq] at h
                        obtain ⟨rfl, rfl⟩ := h
                        exact storeExt_setCellAt_high (storeExt_alloc σ _) (Nat.le_refl _) _
                    · rw [if_neg hass] at h
                      cases hr : redactS p t fuel σ (.ptr pt (some aE)) with
                      | none => rw [hr] at h; simp at h
                      | some pr =>
                        obtain ⟨σ1, red⟩ := pr
                        rw [hr] at h
                        dsimp only at h
                        cases hgs : goSetH (.ptr pt) red with
                        | none => rw [hgs] at h; simp at h
                        | some fvx =>
                          rw [hgs] at h
                          simp only [Option.some.injEq, Prod.mk.injEq] at h
                          obtain ⟨rfl, rfl⟩ := h
                          exact ihS p t σ _ σ1 red hr
            | none => exact redactFieldS_else_frame (ihS p t) σ _ σ2 fv2 h
          | str s => exact redactFieldS_else_frame (ihS p t) σ _ σ2 fv2 h
          | int m => exact redactFieldS_else_frame (ihS p t) σ _ σ2 fv2 h
          | bool b => exact redactFieldS_else_frame (ihS p t) σ _ σ2 fv2 h
          | iface oe => exact redactFieldS_else_frame (ihS p t) σ _ σ2 fv2 h
          | strct fs => exact redactFieldS_else_frame (ihS p t) σ _ σ2 fv2 h
          | map kt vt oa => exact redactFieldS_else_frame (ihS p t) σ _ σ2 fv2 h
          | slice et len cap oa => exact redactFieldS_else_frame (ihS p t) σ _ σ2 fv2 h
          | array et es => exact redactFieldS_else_frame (ihS p t) σ _ σ2 fv2 h
        · rw [if_neg hsens] at h
          cases hr : redactS p t fuel σ fv with
          | none => rw [hr] at h; simp at h
          | some pr =>
            obtain ⟨σ1, red⟩ := pr
            rw [hr] at h
            dsimp only at h
            cases hgs : goSetH (typeOfH fv) red with
            | none => rw [hgs] at h; simp at h
            | some fvx =>
              rw [hgs] at h
              simp only [Option.some.injEq, Prod.mk.injEq] at h
              obtain ⟨rfl, rfl⟩ := h
              exact ihS p t σ fv σ1 red hr
    · -- redactFieldsS
      intro p t σ fs σ2 fs2 h
      cases fs with
      | nil =>
        simp only [redactFieldsS, Option.some.injEq, Prod.mk.injEq] at h
        obtain ⟨rfl, rfl⟩ := h
        exact storeExt_refl σ
      | cons f rest =>
        obtain ⟨n, tg, ex, fv⟩ := f
        simp only [redactFieldsS] at h
        cases hf : redactFieldS p t fuel σ (n, tg, ex, fv) with
        | none => rw [hf] at h; simp at h
        | some pr =>
          obtain ⟨σ1, fv2⟩ := pr
          rw [hf] at h
          dsimp only at h
          cases hrest : redactFieldsS p t fuel σ1 rest with
          | none => rw [hrest] at h; simp at h
          | some pr2 =>
            obtain ⟨σ3, rest2⟩ := pr2
            rw [hrest] at h
            simp only [Option.some.injEq, Prod.mk.injEq] at h
            obtain ⟨rfl, rfl⟩ := h
            exact storeExt_trans (ihF p t σ (n, tg, ex, fv) σ1 fv2 hf)
              (ihFs p t σ1 rest σ3 rest2 hrest)
    · -- redactEntriesS
      intro p t vt σ dstA es σ2 h
      cases es with
      | nil =>
        simp only [redactEntriesS, Option.some.injEq] at h
        subst h
        exact storeExtX_of (storeExt_refl σ)
      | cons e rest =>
        obtain ⟨k, v⟩ := e
        simp only [redactEntriesS] at h
        by_cases hcond : (decide (keyStrOfH k ≠ "") && p (keyStrOfH k)) = true
        · rw [if_pos hcond] at h
          cases hrv : rvOfH (t (interfaceOfH v)) with
          | none =>
            rw [hrv] at h
            exact ihE p t vt σ dstA rest σ2 h
          | some r =>
            rw [hrv] at h
            dsimp only at h
            cases hgs : goSetH vt r with
            | none => rw [hgs] at h; simp at h
            | some r2 =>
              rw [hgs] at h
              dsimp only at h
              exact storeExtX_trans (storeExtX_mapSetAt (storeExtX_of (storeExt_refl σ)) k r2)
                (ihE p t vt (mapSetAt σ dstA k r2) dstA rest σ2 h)
        · rw [if_neg hcond] at h
          cases hr : redactS p t fuel σ v with
          | none => rw [hr] at h; simp at h
          | some pr =>
            obtain ⟨σ1, red⟩ := pr
            rw [hr] at h
            dsimp only at h
            cases hgs : goSetH vt red with
            | none => rw [hgs] at h; simp at h
            | some r2 =>
              rw [hgs] at h
              dsimp only at h
              exact storeExtX_trans
                (storeExtX_mapSetAt (storeExtX_of (ihS p t σ v σ1 red hr)) k r2)
                (ihE p t vt (mapSetAt σ1 dstA k r2) dstA rest σ2 h)
    · -- redactElemsS
      intro p t et σ dstA i es σ2 h
      cases es with
      | nil =>
        simp only [redactElemsS, Option.some.injEq] at h
        subst h
        exact storeExtX_of (storeExt_refl σ)
      | cons e rest =>
        simp only [redactElemsS] at h
        cases hr : redactS p t fuel σ e with
        | none => rw [hr] at h; simp at h
        | some pr =>
          obtain ⟨σ1, r⟩ := pr
          rw [hr] at h
          dsimp only at h
          cases hgs : goSetH et r with
          | none => rw [hgs] at h; simp at h
          | some r2 =>
            rw [hgs] at h
            dsimp only at h
            exact storeExtX_trans
              (storeExtX_arrSetAt (storeExtX_of (ihS p t σ e σ1 r hr)) i r2)
              (ihL p t et (arrSetAt σ1 dstA i r2) dstA (i + 1) rest σ2 h)
    · -- redactArrS
      intro p t et σ es σ2 es2 h
      cases es with
      | nil =>
        simp only [redactArrS, Option.some.injEq, Prod.mk.injEq] at h
        obtain ⟨rfl, rfl⟩ := h
        exact storeExt_refl σ
      | cons e rest =>
        simp only [redactArrS] at h
        cases hr : redactS p t fuel σ e with
        | none => rw [hr] at h; simp at h
        | some pr =>
          obtain ⟨σ1, r⟩ := pr
          rw [hr] at h
          dsimp only at h
          cases hgs : goSetH et r with
          | none => rw [hgs] at h; simp at h
          | some r2 =>
            rw [hgs] at h
            dsimp only at h
            cases hrest : redactArrS p t fuel et σ1 rest with
            | none => rw [hrest] at h; simp at h
            | some pr2 =>
              obtain ⟨σ3, rest2⟩ := pr2
              rw [hrest] at h
              simp only [Option.some.injEq, Prod.mk.injEq] at h
              obtain ⟨rfl, rfl⟩ := h
              exact storeExt_trans (ihS p t σ e σ1 r hr) (ihA p t et σ1 rest σ3 rest2 hrest)

/-- C4: redaction never mutates the original input, for every predicate and every
transform. In the store model the input value and everything reachable from it
(pointer targets, slice backing arrays, map contents — the only Go data this code can
mutate in place; structs, arrays and interfaces are inline immutable values here) live
in cells of the initial store, and a successful run leaves every pre-existing cell
byte-for-byte intact: the final store only extends the initial one. -/
theorem C4_nonMutation (fuel : Nat) (p : String → Bool) (t : HVal → HVal) (σ σ2 : Store)
    (v w : HVal) (h : redactS p t fuel σ v = some (σ2, w)) :
    σ.length ≤ σ2.length ∧ ∀ a, a < σ.length → σ2.get? a = σ.get? a :=
  (storeFrames fuel).1 p t σ v σ2 w h

theorem C4_nonMutation_witness :
    ([HCell.cell (HVal.str "a")] : Store).length ≤
      ([.cell (.str "a"), .cell (.str "a")] : Store).length ∧
    ∀ a, a < ([HCell.cell (HVal.str "a")] : Store).length →
      ([.cell (.str "a"), .cell (.str "a")] : Store).get? a =
        ([HCell.cell (HVal.str "a")] : Store).get? a :=
  C4_nonMutation 3 (fun _ => false) (fun x => x) [.cell (.str "a")]
    [.cell (.str "a"), .cell (.str "a")] (.ptr .str (some 0)) (.ptr .str (some 1))
    (by simp [redactS, getCellAt, allocCell, setCellAt, zeroH, typeOfH, List.set])

end YaRedact
